import Mathlib

/-!
Verification of the NBA fantasy analyzer's scoring and recommendation engine.

The development shallowly embeds the engine's core (category configuration,
stat lines, injury model, position balance, z-score normalization, the
matchup need vector, the basic and enhanced trade engines, the streaming
recommender and team weighting/punt detection) as executable Lean
definitions over exact rationals, and proves the specification claims
about them.  Python floats are modelled by rationals; the two uses of
transcendental functions in the source (the population standard deviation,
which is a square root, and the exponential inside the enhanced engine's
diminishing-returns curve) are modelled by explicit parameters, so every
theorem quantifies over the values those calls could return.
-/

/-- The nine scoring categories of a 9-cat league (config.CATEGORIES). -/
inductive Cat where
  | PTS | REB | AST | STL | BLK | FGP | FTP | TPM | TOV
deriving DecidableEq, Repr

/-- The ordered category list (config.CATEGORIES). -/
def CATEGORIES : List Cat :=
  [.PTS, .REB, .AST, .STL, .BLK, .FGP, .FTP, .TPM, .TOV]

/-- Categories where lower is better (config.NEGATIVE_CATEGORIES). -/
def NEGATIVE_CATEGORIES : List Cat := [.TOV]

/-- Turnovers count at 25% weight toward total score (config.TURNOVER_WEIGHT). -/
def TURNOVER_WEIGHT : ℚ := 1/4

/-- Trade/streaming categories: everything except turnovers
(analysis.trade.TRADE_CATEGORIES). -/
def TRADE_CATEGORIES : List Cat := CATEGORIES.filter (fun c => c != Cat.TOV)

/-- A per-category map of rationals, modelling the per-category entries of a
player's or team's stats dictionary. -/
structure StatLine where
  pts : ℚ
  reb : ℚ
  ast : ℚ
  stl : ℚ
  blk : ℚ
  fgp : ℚ
  ftp : ℚ
  tpm : ℚ
  tov : ℚ
deriving DecidableEq, Repr

/-- Read one category's entry. -/
def StatLine.get (s : StatLine) : Cat → ℚ
  | .PTS => s.pts
  | .REB => s.reb
  | .AST => s.ast
  | .STL => s.stl
  | .BLK => s.blk
  | .FGP => s.fgp
  | .FTP => s.ftp
  | .TPM => s.tpm
  | .TOV => s.tov

/-- Build a stat line from a function over categories. -/
def StatLine.ofFn (f : Cat → ℚ) : StatLine :=
  ⟨f .PTS, f .REB, f .AST, f .STL, f .BLK, f .FGP, f .FTP, f .TPM, f .TOV⟩

/-- The all-zero stat line. -/
def StatLine.zero : StatLine := ⟨0, 0, 0, 0, 0, 0, 0, 0, 0⟩

/-- A fantasy roster player (fantasy_models.RosterPlayer).  The source stores
raw stats, the derived local z-scores (keys prefixed by the reserved z-score
prefix) and the injury severity (its reserved key) in one dictionary whose
key families never collide; here they are three separate fields. -/
structure RosterPlayer where
  display_name : String
  fantasy_position : String
  nba_team_abbrev : String
  stats : StatLine
  zscores : StatLine
  injury_sev : ℚ
deriving DecidableEq, Repr

/-- A fantasy team profile (fantasy_models.TeamProfile), restricted to the
fields the analysis engines read. -/
structure TeamProfile where
  team_name : String
  players : List RosterPlayer
  raw_zscores : StatLine
  punt_categories : List Cat
  strength_categories : List Cat
deriving DecidableEq, Repr

/-! ## Stat normalizer (statistics.mean / statistics.pstdev call sites)

`core/league.py` and `analysis/trade.py` both compute population z-scores:
`z = (value - mean) / (pstdev or 1.0)`.  The population standard deviation
is the square root of the population variance, which is irrational in
general, so the embedding passes the standard deviation as a parameter;
theorems constrain it by `std * std = popVariance vals`. -/

/-- Population mean of a list of values. -/
def popMean (vals : List ℚ) : ℚ := vals.sum / (vals.length : ℚ)

/-- Population variance (mean squared deviation) of a list of values. -/
def popVariance (vals : List ℚ) : ℚ :=
  ((vals.map (fun v => (v - popMean vals) * (v - popMean vals))).sum) / (vals.length : ℚ)

/-- The `pstdev(vals) or 1.0` fallback: a zero standard deviation is
replaced by 1. -/
def effStd (std : ℚ) : ℚ := if std = 0 then 1 else std

/-- Population z-scores of a value list, given the population standard
deviation `std` (with the zero fallback applied). -/
def zscoresWith (vals : List ℚ) (std : ℚ) : List ℚ :=
  vals.map (fun v => (v - popMean vals) / effStd std)

/-- League-wide z-scores as `aggregate_team_profiles` computes them: the
plain z-scores, negated when the category is flagged lower-is-better. -/
def leagueZWith (vals : List ℚ) (std : ℚ) (invert : Bool) : List ℚ :=
  (zscoresWith vals std).map (fun z => if invert then -z else z)

/-! ## Injury model (analysis/injury.py) -/

/-- Uppercase a character list (models Python str.upper for the ASCII
status strings involved). -/
def upperChars (s : List Char) : List Char := s.map Char.toUpper

/-- Lowercase a character list (models Python str.lower). -/
def lowerChars (s : List Char) : List Char := s.map Char.toLower

/-- Does the list start with the given pattern? -/
def startsWithL : List Char → List Char → Bool
  | _, [] => true
  | [], _ :: _ => false
  | a :: as, b :: bs => a = b && startsWithL as bs

/-- Substring containment, modelling Python's `needle in hay`. -/
def hasSubstr (needle : List Char) : List Char → Bool
  | [] => startsWithL [] needle
  | c :: t => startsWithL (c :: t) needle || hasSubstr needle t

/-- Does the status contain any of the given tags
(`any(tag in status for tag in tags)`)? -/
def hasAnyTag (status : List Char) (tags : List String) : Bool :=
  tags.any (fun t => hasSubstr t.toList status)

/-- Whitespace characters recognised by the duration pattern. -/
def isSpaceChar (c : Char) : Bool :=
  c = ' ' || c = '\t' || c = '\n' || c = '\r' || c = '\x0b' || c = '\x0c'

/-- Parse a maximal run of leading digits, returning the parsed number and
the rest of the input. -/
def takeDigits : Nat → List Char → Nat × List Char
  | acc, [] => (acc, [])
  | acc, c :: t =>
    if c.isDigit then takeDigits (acc * 10 + (c.toNat - 48)) t else (acc, c :: t)

/-- Recognise the duration unit after the digits, as the regex alternation
`day|days|wk|wks|week|weeks` does at one position: `some true` means a
day-based unit, `some false` a week-based one. -/
def unitKind (s : List Char) : Option Bool :=
  if startsWithL s ['d', 'a', 'y'] then some true
  else if startsWithL s ['w', 'k'] then some false
  else if startsWithL s ['w', 'e', 'e', 'k'] then some false
  else none

/-- Left-to-right search for the first match of the duration pattern
`(\d+)\s*(day|days|wk|wks|week|weeks)` in the lowercased detail text. -/
def findDuration : List Char → Option (Nat × Bool)
  | [] => none
  | c :: t =>
    if c.isDigit then
      match unitKind ((takeDigits 0 (c :: t)).2.dropWhile isSpaceChar) with
      | some isDay => some ((takeDigits 0 (c :: t)).1, isDay)
      | none => findDuration t
    else findDuration t

/-- Base severity from coarse status keyword matching, highest tier first
(analysis/injury.py lines 31-39). -/
def statusBase (status_raw : String) : ℚ :=
  let status := upperChars status_raw.toList
  if hasAnyTag status ["OUT", "INJ", "IL", "IR"] then 1
  else if hasAnyTag status ["DOUBTFUL"] then 4/5
  else if hasAnyTag status ["QUESTIONABLE", "QST", "Q"] then 3/5
  else if hasAnyTag status ["DAY-TO-DAY", "DTD", "GTD", "PROBABLE"] then 3/10
  else 0

/-- Duration severity extracted from the free-text detail: days count one
game each, weeks three, capped at `10 / 10 = 1` (lines 42-53). -/
def durationSeverity (detail_raw : String) : ℚ :=
  match findDuration (lowerChars detail_raw.toList) with
  | some (n, isDay) => min 1 ((if isDay then (n : ℚ) else 3 * (n : ℚ)) / 10)
  | none => 0

/-- Map ESPN-style injury strings to a severity in [0,1]
(analysis/injury.estimate_injury_severity). -/
def estimate_injury_severity (status_raw detail_raw : String) : ℚ :=
  if status_raw = "" ∧ detail_raw = "" then 0
  else min 1 (max (statusBase status_raw) (durationSeverity detail_raw))

/-- The durability discount applied to an injured player's contribution:
1 for healthy, 0.3 for fully severe. -/
def durability (sev : ℚ) : ℚ := 1 - 7/10 * max 0 (min 1 sev)

/-! ## Position balance model (analysis/position.py) -/

/-- Strip spaces and turn hyphens into slashes in a position string. -/
def posNormalize (s : List Char) : List Char :=
  (s.filter (fun c => c != ' ')).map (fun c => if c = '-' then '/' else c)

/-- The first field of a separator-delimited list (Python split()[0]). -/
def firstField (sep : Char) (s : List Char) : List Char :=
  s.takeWhile (fun c => c != sep)

/-- Extract a single primary position token from an ESPN position string;
empty or unparseable input yields the "UTIL" sentinel
(analysis/position.primary_position). -/
def primary_position (pos : String) : String :=
  let s := posNormalize pos.toList
  let head := if s.contains '/' then firstField '/' s else firstField ',' s
  if head = [] then "UTIL" else ⟨upperChars head⟩

/-- Primary positions of a list of players. -/
def posList (ps : List RosterPlayer) : List String :=
  ps.map (fun p => primary_position p.fantasy_position)

/-- Occurrences of one position token among a list of players. -/
def countPos (ps : List RosterPlayer) (k : String) : ℤ :=
  ((posList ps).count k : ℤ)

/-- How much a swap improves position balance: distance of the position
histogram to the uniform ideal, before minus after
(analysis/position.position_balance_delta). -/
def position_balance_delta (team : TeamProfile) (out inn : List RosterPlayer) : ℚ :=
  if team.players = [] then 0
  else
    let keysB := (posList team.players).dedup
    let ideal : ℚ := (team.players.length : ℚ) / ((max 1 keysB.length : ℕ) : ℚ)
    let keysA := (keysB ++ (posList out).dedup ++ (posList inn).dedup).dedup
    let distB := (keysB.map (fun k => |(countPos team.players k : ℚ) - ideal|)).sum
    let distA := (keysA.map (fun k =>
      |((countPos team.players k - countPos out k + countPos inn k : ℤ) : ℚ) - ideal|)).sum
    distB - distA

/-! ## Stable sorting

Python's list.sort is stable; the engines sort by a rational key in
descending (or, for auto punts, ascending) order.  A stable insertion sort
by key, written with structural recursion. -/

/-- Insert an element into a descending-by-key list, after any elements of
equal key (keeps the sort stable). -/
def insertByKeyDesc {α : Type} (key : α → ℚ) (a : α) : List α → List α
  | [] => [a]
  | b :: t => if key b < key a then a :: b :: t else b :: insertByKeyDesc key a t

/-- Stable sort, descending by key. -/
def sortByKeyDesc {α : Type} (key : α → ℚ) (l : List α) : List α :=
  l.foldl (fun acc a => insertByKeyDesc key a acc) []

/-- Stable sort, ascending by key. -/
def sortByKeyAsc {α : Type} (key : α → ℚ) (l : List α) : List α :=
  sortByKeyDesc (fun a => -(key a)) l

/-! ## Local player z-scores (analysis/trade.py lines 111-130) -/

/-- The raw values of one category across a player pool. -/
def poolVals (pool : List RosterPlayer) (c : Cat) : List ℚ :=
  pool.map (fun q => q.stats.get c)

/-- Recompute a player's per-category local z-scores over the given pool and
store them on the player (`_compute_local_player_z`).  `stdv c` models the
population standard deviation `pstdev` returns for category `c`; the
source's `or 1.0` fallback is `effStd`.  Turnovers are not a trade category,
so their stored z-score is left untouched. -/
def computeLocalZ (pool : List RosterPlayer) (stdv : Cat → ℚ) (p : RosterPlayer) :
    RosterPlayer :=
  { p with zscores := StatLine.ofFn (fun c =>
      if c = Cat.TOV then p.zscores.get c
      else (p.stats.get c - popMean (poolVals pool c)) / effStd (stdv c)) }

/-! ## Basic preference vector (analysis/trade.py lines 21-66) -/

/-- Base preference for one category from the team profile. -/
def basicPrefBase (team : TeamProfile) (c : Cat) : ℚ :=
  let z := team.raw_zscores.get c
  if c ∈ team.strength_categories ∧ 0 < z then 1 + 1/2 * max z 0
  else if 0 < z then 7/10 + 3/10 * z
  else 2/5 + 1/5 * (-(min z 0))

/-- Unnormalized preference entry: punted categories scaled by 0.3, then
the user weight, floored at 0. -/
def basicPrefRaw (team : TeamProfile) (w : Cat → ℚ) (c : Cat) : ℚ :=
  let b := basicPrefBase team c
  let b2 := if c ∈ team.punt_categories then b * (3/10) else b
  max 0 (b2 * w c)

/-- Total of an unnormalized preference map over the trade categories. -/
def prefTotal (raw : Cat → ℚ) : ℚ := (TRADE_CATEGORIES.map raw).sum

/-- The team's normalized preference vector over trade categories; uniform
fallback when the total is not positive (`_build_preference_vector`). -/
def build_preference_vector (team : TeamProfile) (w : Cat → ℚ) : Cat → ℚ :=
  let raw := basicPrefRaw team w
  let total := prefTotal raw
  if total ≤ 0 then fun _ => 1 / (TRADE_CATEGORIES.length : ℚ)
  else fun c => raw c / total

/-! ## Market value and fairness (analysis/trade.py lines 69-108) -/

/-- Team-agnostic market value of one player (`_market_value`). -/
def market_value (w : Cat → ℚ) (p : RosterPlayer) : ℚ :=
  ((TRADE_CATEGORIES.map (fun c => w c * p.zscores.get c)).sum) * durability p.injury_sev

/-- Total market value of a package of players. -/
def packageValue (w : Cat → ℚ) (ps : List RosterPlayer) : ℚ :=
  (ps.map (market_value w)).sum

/-- Symmetric fairness metric on two packages
(`_fairness_score_for_packages`). -/
def fairness_score_for_packages (w : Cat → ℚ) (pa pb : List RosterPlayer) : ℚ :=
  let va := packageValue w pa
  let vb := packageValue w pb
  let avg := (|va| + |vb|) / 2
  if avg ≤ 1/1000000 then 1 else max 0 (1 - |va - vb| / avg)

/-! ## Effect vectors and basic package scoring (analysis/trade.py 133-205) -/

/-- One player's fantasy effect in one category: local z-score times the
durability discount (`_player_effect_vector`). -/
def player_effect (p : RosterPlayer) (c : Cat) : ℚ :=
  p.zscores.get c * durability p.injury_sev

/-- Summed effect of a package (`_package_effect_vector`). -/
def package_effect (ps : List RosterPlayer) (c : Cat) : ℚ :=
  (ps.map (fun p => player_effect p c)).sum

/-- How much a team improves by swapping `out` for `inn`: preference-weighted
per-category deltas plus a 0.12-weighted position-balance term
(`_score_package_for_team`). -/
def score_package_for_team (team : TeamProfile) (prefs : Cat → ℚ)
    (out inn : List RosterPlayer) : ℚ :=
  ((TRADE_CATEGORIES.map (fun c =>
      (package_effect inn c - package_effect out c) * prefs c)).sum)
  + 12/100 * position_balance_delta team out inn

/-! ## Enhanced trade engine constants and scoring (analysis/trade_enhanced.py) -/

/-- Per-category week-to-week volatility (`CATEGORY_VOLATILITY`), with the
dictionary's 0.15 default for the one category not listed. -/
def volatility : Cat → ℚ
  | .PTS => 3/20
  | .REB => 3/25
  | .AST => 9/50
  | .STL => 7/20
  | .BLK => 8/25
  | .FGP => 2/25
  | .FTP => 1/10
  | .TPM => 1/4
  | .TOV => 3/20

/-- The fixed pairwise category correlation table (`CATEGORY_CORRELATIONS`),
in the source's insertion order. -/
def CORRELATIONS : List ((Cat × Cat) × ℚ) :=
  [((.REB, .FGP), 3/5), ((.AST, .PTS), 1/2), ((.STL, .AST), 2/5),
   ((.BLK, .REB), 1/2), ((.TPM, .PTS), 3/5)]

/-- Diminishing returns on positive values (`_diminishing_returns`);
`expf` models the real exponential, so the source's
`value * (1 - exp(-value / threshold))` is
`value * (1 - expf (-(value / threshold)))`. -/
def diminishing_returns (expf : ℚ → ℚ) (value threshold : ℚ) : ℚ :=
  if value ≤ 0 then value else value * (1 - expf (-(value / threshold)))

/-- The enhanced preference base tier cascade (trade_enhanced.py lines
122-136): strength branch first, then mild positive, then the swing zone,
then weak. -/
def enhancedBase (expf : ℚ → ℚ) (team : TeamProfile) (c : Cat) : ℚ :=
  let z := team.raw_zscores.get c
  if c ∈ team.strength_categories ∧ 0 < z then
    1 + 1/2 * diminishing_returns expf z 1
  else if 1/5 < z then 7/10 + 3/10 * z
  else if -(3/10) < z then 4/5 + 2/5 * (1 - |z|)
  else 2/5 + 1/5 * (-(min z 0))

/-- Opponent-aware adjustment and volatility bonus on the enhanced base
(lines 139-153). -/
def enhancedAdjusted (expf : ℚ → ℚ) (team : TeamProfile) (opp : Option TeamProfile)
    (c : Cat) : ℚ :=
  let base := enhancedBase expf team c
  let base1 :=
    match opp with
    | none => base
    | some o =>
      let margin := team.raw_zscores.get c - o.raw_zscores.get c
      if -(1/2) < margin ∧ margin < 0 then base * (13/10)
      else if 1 < margin then base * (7/10)
      else base
  base1 + (1 - volatility c) * (1/5)

/-- Unnormalized enhanced preference entry: punted categories scaled by 0.2,
then the user weight, floored at 0 (lines 155-159). -/
def enhancedPrefRaw (expf : ℚ → ℚ) (team : TeamProfile) (w : Cat → ℚ)
    (opp : Option TeamProfile) (c : Cat) : ℚ :=
  let b := enhancedAdjusted expf team opp c
  let b2 := if c ∈ team.punt_categories then b * (1/5) else b
  max 0 (b2 * w c)

/-- The enhanced normalized preference vector with its uniform fallback
(`_build_enhanced_preference_vector`). -/
def build_enhanced_preference_vector (expf : ℚ → ℚ) (team : TeamProfile)
    (w : Cat → ℚ) (opp : Option TeamProfile) : Cat → ℚ :=
  let raw := enhancedPrefRaw expf team w opp
  let total := prefTotal raw
  if total ≤ 0 then fun _ => 1 / (TRADE_CATEGORIES.length : ℚ)
  else fun c => raw c / total

/-- Swing value of a category improvement (`_category_swing_value`). -/
def category_swing_value (current_z improvement vol : ℚ) : ℚ :=
  let eff :=
    if 1 < current_z then improvement * (1 / (1 + current_z))
    else if current_z < -(1/2) then improvement * (3/2)
    else improvement * (6/5)
  eff * (1 - vol * (3/10))

/-- Does the already-processed per-category gain list hold a strictly
positive entry for `c`? -/
def hasPosGain (done : List (Cat × ℚ)) (c : Cat) : Bool :=
  match done.lookup c with
  | some v => decide (0 < v)
  | none => false

/-- Correlation penalty for category `c` given the categories already
processed this package (trade_enhanced.py lines 204-211). -/
def corrPenalty (done : List (Cat × ℚ)) (c : Cat) : ℚ :=
  CORRELATIONS.foldl (fun acc e =>
    if c = e.1.1 ∧ hasPosGain done e.1.2 = true then acc * (1 - e.2 * (3/10))
    else if c = e.1.2 ∧ hasPosGain done e.1.1 = true then acc * (1 - e.2 * (3/10))
    else acc) 1

/-- One step of the enhanced per-category loop: swing value, preference
weight, correlation penalty; the processed list grows in category order. -/
def enhancedStep (team : TeamProfile) (prefs : Cat → ℚ)
    (out inn : List RosterPlayer) (st : List (Cat × ℚ) × ℚ) (c : Cat) :
    List (Cat × ℚ) × ℚ :=
  let delta_raw := package_effect inn c - package_effect out c
  let sv := category_swing_value (team.raw_zscores.get c) delta_raw (volatility c)
  let d := sv * prefs c * corrPenalty st.1 c
  (st.1 ++ [(c, d)], st.2 + d)

/-- Enhanced package scoring with a 0.15-weighted position term
(`_score_package_enhanced`). -/
def score_package_enhanced (team : TeamProfile) (prefs : Cat → ℚ)
    (out inn : List RosterPlayer) : ℚ :=
  (TRADE_CATEGORIES.foldl (enhancedStep team prefs out inn) ([], 0)).2
  + 15/100 * position_balance_delta team out inn

/-! ## Trade search (analysis/trade.py lines 283-409 and
trade_enhanced.py lines 227-347) -/

/-- One produced trade suggestion, restricted to the fields the search
filters and ranks on. -/
structure Suggestion where
  from_a : List RosterPlayer
  from_b : List RosterPlayer
  gain_a : ℚ
  gain_b : ℚ
  score : ℚ
  fairness : ℚ
deriving DecidableEq, Repr

/-- The set of display names of a package (Python set comprehension). -/
def namesOf (ps : List RosterPlayer) : Finset String :=
  (ps.map (fun p => p.display_name)).toFinset

/-- All candidate packages of one roster: every combination of 1 or 2
players. -/
def packsOf (ps : List RosterPlayer) : List (List RosterPlayer) :=
  List.sublistsLen 1 ps ++ List.sublistsLen 2 ps

/-- All candidate package pairs from two rosters. -/
def allPairs (a b : List (List RosterPlayer)) :
    List (List RosterPlayer × List RosterPlayer) :=
  (a.map (fun x => b.map (fun y => (x, y)))).flatten

/-- The filter chain of the search loop: skip same-name-set swaps, require
both fit gains positive, their sum above the significance threshold and
fairness at least 0.85. -/
def tradeKeep (fitA fitB : List RosterPlayer → List RosterPlayer → ℚ)
    (thr : ℚ) (w : Cat → ℚ) (pr : List RosterPlayer × List RosterPlayer) : Bool :=
  decide (namesOf pr.1 ≠ namesOf pr.2)
  && decide (0 < fitA pr.1 pr.2) && decide (0 < fitB pr.2 pr.1)
  && decide (thr < fitA pr.1 pr.2 + fitB pr.2 pr.1)
  && decide (17/20 ≤ fairness_score_for_packages w pr.1 pr.2)

/-- Build the suggestion record for one surviving package pair. -/
def mkSuggestion (fitA fitB : List RosterPlayer → List RosterPlayer → ℚ)
    (w : Cat → ℚ) (pr : List RosterPlayer × List RosterPlayer) : Suggestion :=
  { from_a := pr.1
    from_b := pr.2
    gain_a := fitA pr.1 pr.2
    gain_b := fitB pr.2 pr.1
    score := (fitA pr.1 pr.2 + fitB pr.2 pr.1) * fairness_score_for_packages w pr.1 pr.2
    fairness := fairness_score_for_packages w pr.1 pr.2 }

/-- The shared search loop of both engines: enumerate package pairs, filter,
rank by score descending, return the best `k`. -/
def tradeSearch (fitA fitB : List RosterPlayer → List RosterPlayer → ℚ)
    (thr : ℚ) (w : Cat → ℚ) (a b : List RosterPlayer) (k : ℕ) : List Suggestion :=
  (sortByKeyDesc (fun s => s.score)
    (((allPairs (packsOf a) (packsOf b)).filter (tradeKeep fitA fitB thr w)).map
      (mkSuggestion fitA fitB w))).take k

/-- Generate fair trade suggestions between two teams
(`generate_trade_suggestions`): local z-scores over the pooled rosters,
basic preference vectors, significance threshold 0.05, top 3 by default. -/
def generate_trade_suggestions (ta tb : TeamProfile) (w stdv : Cat → ℚ)
    (max_trades : ℕ := 3) : List Suggestion :=
  let pool := ta.players ++ tb.players
  let ta2 := { ta with players := ta.players.map (computeLocalZ pool stdv) }
  let tb2 := { tb with players := tb.players.map (computeLocalZ pool stdv) }
  let prefsA := build_preference_vector ta2 w
  let prefsB := build_preference_vector tb2 w
  tradeSearch (fun po pin => score_package_for_team ta2 prefsA po pin)
    (fun po pin => score_package_for_team tb2 prefsB po pin)
    (1/20) w ta2.players tb2.players max_trades

/-- Generate enhanced trade suggestions
(`generate_enhanced_trade_suggestions`): enhanced preference vectors
(opponent-aware when `consider_opponent`), enhanced package scoring,
significance threshold 0.08, top 3 by default. -/
def generate_enhanced_trade_suggestions (expf : ℚ → ℚ) (ta tb : TeamProfile)
    (w stdv : Cat → ℚ) (max_trades : ℕ := 3) (consider_opponent : Bool := true) :
    List Suggestion :=
  let pool := ta.players ++ tb.players
  let ta2 := { ta with players := ta.players.map (computeLocalZ pool stdv) }
  let tb2 := { tb with players := tb.players.map (computeLocalZ pool stdv) }
  let oppA := if consider_opponent then some tb2 else none
  let oppB := if consider_opponent then some ta2 else none
  let prefsA := build_enhanced_preference_vector expf ta2 w oppA
  let prefsB := build_enhanced_preference_vector expf tb2 w oppB
  tradeSearch (fun po pin => score_package_enhanced ta2 prefsA po pin)
    (fun po pin => score_package_enhanced tb2 prefsB po pin)
    (2/25) w ta2.players tb2.players max_trades

/-! ## Matchup need engine (core/matchup.py lines 55-145)

The live box-score snapshots are modelled as partial per-category value
maps: `none` stands for a missing entry or a value that fails float
conversion, both of which the source skips. -/

/-- Pre-punt need for one category from the policy table (lines 87-132). -/
def needPre (my opp : Cat → Option ℚ) (c : Cat) : ℚ :=
  match my c, opp c with
  | some mv, some ov =>
    let margin := if c = Cat.TOV then ov - mv else mv - ov
    let rel := |margin| / max |ov| (1/1000)
    if 0 ≤ margin then
      if rel < 1/20 then 2/5 * (1 - rel / (1/20)) else 0
    else
      if rel < 1/20 then 1
      else if rel < 3/20 then 3/5
      else 1/5
  | _, _ => 0

/-- Need after the punt downweighting (lines 134-138). -/
def needPunted (my opp : Cat → Option ℚ) (punts : List Cat) (c : Cat) : ℚ :=
  needPre my opp c * (if c ∈ punts then 1/10 else 1)

/-- The pre-normalization total over all categories. -/
def needTotal (my opp : Cat → Option ℚ) (punts : List Cat) : ℚ :=
  (CATEGORIES.map (needPunted my opp punts)).sum

/-- The matchup need vector (`matchup_need_vector`): normalized to sum 1
when the total is positive, otherwise returned unnormalized. -/
def matchup_need_vector (my opp : Cat → Option ℚ) (punts : List Cat) : Cat → ℚ :=
  let total := needTotal my opp punts
  if total ≤ 0 then needPunted my opp punts
  else fun c => needPunted my opp punts c / total

/-! ## Streaming engine (analysis/streaming.py lines 94-275)

The needs vector handed to the scoring loop and the waiver pool with its
local z-scores already stored are the function's effective inputs; the
schedule is the set of team abbreviations playing today, empty meaning
unknown. -/

/-- Uppercase a string (models `(rp.nba_team_abbrev or "").upper()`). -/
def upperStr (s : String) : String := ⟨upperChars s.toList⟩

/-- Schedule filter: keep the player when the schedule is unknown or the
player's NBA team plays today (line 221). -/
def scheduleOk (teams_playing : List String) (p : RosterPlayer) : Bool :=
  teams_playing.isEmpty || teams_playing.contains (upperStr p.nba_team_abbrev)

/-- Streaming score of one player: per-category effect times need, summed
over the trade categories (lines 227-232). -/
def streamScore (needs : Cat → ℚ) (p : RosterPlayer) : ℚ :=
  (TRADE_CATEGORIES.map (fun c => player_effect p c * needs c)).sum

/-- One streaming result row, restricted to the fields the claims concern. -/
structure StreamResult where
  player : RosterPlayer
  score : ℚ
  injury_sev : ℚ
  playing_today : Bool
deriving DecidableEq, Repr

/-- Build the result row for one kept player (lines 245-271). -/
def mkStreamResult (needs : Cat → ℚ) (teams_playing : List String)
    (p : RosterPlayer) : StreamResult :=
  { player := p
    score := streamScore needs p
    injury_sev := p.injury_sev
    playing_today := teams_playing.isEmpty || teams_playing.contains (upperStr p.nba_team_abbrev) }

/-- The kept-and-scored candidate rows of the loop: players passing the
schedule filter with a strictly positive streaming score. -/
def streamCandidates (needs : Cat → ℚ) (pool : List RosterPlayer)
    (teams_playing : List String) : List StreamResult :=
  (pool.filter (fun p =>
      scheduleOk teams_playing p && decide (0 < streamScore needs p))).map
    (mkStreamResult needs teams_playing)

/-- The streaming recommender's scoring-and-filter stage over a waiver pool
whose local z-scores are already stored (`recommend_streaming_adds`,
lines 215-275): schedule filter, positive-score filter, rank by score
descending, top `max_results`. -/
def recommend_streaming_adds (needs : Cat → ℚ) (pool : List RosterPlayer)
    (teams_playing : List String) (max_results : ℕ := 15) : List StreamResult :=
  (sortByKeyDesc (fun r => r.score)
    (streamCandidates needs pool teams_playing)).take max_results

/-! ## Team weighting, punts and strengths (core/team_analysis.py) -/

/-- The categories kept for scoring: weight strictly positive (the source
skips `weight <= 0` in the scoring loop and its auto-punt pool is the
categories with `weight > 0`). -/
def keptCats (w : Cat → ℚ) : List Cat :=
  CATEGORIES.filter (fun c => decide (0 < w c))

/-- The effective weight: the user weight, times the turnover discount for
the designated category. -/
def effWeight (w : Cat → ℚ) (c : Cat) : ℚ :=
  w c * (if c = Cat.TOV then TURNOVER_WEIGHT else 1)

/-- First element minimizing the key (Python min with a key function keeps
the first minimum). -/
def minByKey {α : Type} (key : α → ℚ) (h : α) (t : List α) : α :=
  t.foldl (fun best c => if key c < key best then c else best) h

/-- Weak categories: kept categories with negative z. -/
def weakCats (rz : Cat → ℚ) (w : Cat → ℚ) : List Cat :=
  (keptCats w).filter (fun c => decide (rz c < 0))

/-- Seriously weak categories: kept categories with z at most -0.5. -/
def seriousWeak (rz : Cat → ℚ) (w : Cat → ℚ) : List Cat :=
  (keptCats w).filter (fun c => decide (rz c ≤ -(1/2)))

/-- Auto punts (team_analysis.py lines 70-79): the worst (up to) three
seriously weak categories, else the single weakest weak category, else
none. -/
def autoPunts (rz : Cat → ℚ) (w : Cat → ℚ) : List Cat :=
  match seriousWeak rz w, weakCats rz w with
  | [], [] => []
  | [], wh :: wt => [minByKey rz wh wt]
  | sh :: st, _ => (sortByKeyAsc rz (sh :: st)).take 3

/-- The result fields `apply_weights_and_scores` writes onto one profile. -/
structure AWSResult where
  weighted_zscores : List (Cat × ℚ)
  total_score : ℚ
  punt_categories : List Cat
  strength_categories : List Cat
deriving DecidableEq, Repr

/-- The punt set: manual punts (weight exactly zero) together with the auto
punts (team_analysis.py line 81). -/
def puntSet (rz : Cat → ℚ) (w : Cat → ℚ) : List Cat :=
  CATEGORIES.filter (fun c => decide (w c = 0)) ++ autoPunts rz w

/-- Strength candidates: kept categories outside the punt set with z at
least 0.4 (lines 85-89). -/
def strengthCands (rz : Cat → ℚ) (w : Cat → ℚ) : List Cat :=
  (keptCats w).filter (fun c => decide (c ∉ puntSet rz w) && decide (2/5 ≤ rz c))

/-- Weighted scores, total score, punt and strength detection for one team
profile (`apply_weights_and_scores`; the source maps this body over the
profile list). -/
def apply_weights_and_scores (tp : TeamProfile) (w : Cat → ℚ) : AWSResult :=
  let rz := fun c => tp.raw_zscores.get c
  let weighted := (keptCats w).map (fun c => (c, rz c * effWeight w c))
  { weighted_zscores := weighted
    total_score := (weighted.map Prod.snd).sum
    punt_categories := CATEGORIES.filter (fun c => decide (c ∈ puntSet rz w))
    strength_categories := (sortByKeyDesc rz (strengthCands rz w)).take 4 }

/-! ## Helper lemmas -/

/-- Every category is in the category list. -/
lemma mem_CATEGORIES (c : Cat) : c ∈ CATEGORIES := by
  cases c <;> simp [CATEGORIES]

lemma mem_insertByKeyDesc {α : Type} {key : α → ℚ} {a x : α} {l : List α} :
    x ∈ insertByKeyDesc key a l ↔ x = a ∨ x ∈ l := by
  induction l with
  | nil => simp [insertByKeyDesc]
  | cons b t ih =>
    by_cases h : key b < key a
    · simp [insertByKeyDesc, h]
    · simp [insertByKeyDesc, h, ih]
      tauto

lemma pairwise_insertByKeyDesc {α : Type} {key : α → ℚ} {a : α} {l : List α}
    (hl : l.Pairwise (fun x y => key y ≤ key x)) :
    (insertByKeyDesc key a l).Pairwise (fun x y => key y ≤ key x) := by
  induction l with
  | nil => simp [insertByKeyDesc]
  | cons b t ih =>
    rcases List.pairwise_cons.mp hl with ⟨hb, ht⟩
    by_cases h : key b < key a
    · rw [insertByKeyDesc, if_pos h]
      refine List.pairwise_cons.mpr ⟨?_, hl⟩
      intro x hx
      rcases List.mem_cons.mp hx with rfl | hx
      · exact le_of_lt h
      · exact le_trans (hb x hx) (le_of_lt h)
    · rw [insertByKeyDesc, if_neg h]
      refine List.pairwise_cons.mpr ⟨?_, ih ht⟩
      intro x hx
      rcases mem_insertByKeyDesc.mp hx with rfl | hx
      · exact le_of_not_lt h
      · exact hb x hx

lemma foldl_insert_mem {α : Type} {key : α → ℚ} {x : α} :
    ∀ (l acc : List α),
      (x ∈ l.foldl (fun acc a => insertByKeyDesc key a acc) acc ↔ x ∈ acc ∨ x ∈ l) := by
  intro l
  induction l with
  | nil => intro acc; simp
  | cons a t ih =>
    intro acc
    rw [List.foldl_cons, ih]
    rw [mem_insertByKeyDesc]
    simp
    tauto

lemma foldl_insert_pairwise {α : Type} {key : α → ℚ} :
    ∀ (l acc : List α), acc.Pairwise (fun x y => key y ≤ key x) →
      (l.foldl (fun acc a => insertByKeyDesc key a acc) acc).Pairwise
        (fun x y => key y ≤ key x) := by
  intro l
  induction l with
  | nil => intro acc h; simpa using h
  | cons a t ih =>
    intro acc h
    rw [List.foldl_cons]
    exact ih _ (pairwise_insertByKeyDesc h)

lemma mem_sortByKeyDesc {α : Type} {key : α → ℚ} {x : α} {l : List α} :
    x ∈ sortByKeyDesc key l ↔ x ∈ l := by
  rw [sortByKeyDesc, foldl_insert_mem]
  simp

lemma sorted_sortByKeyDesc {α : Type} (key : α → ℚ) (l : List α) :
    (sortByKeyDesc key l).Pairwise (fun x y => key y ≤ key x) :=
  foldl_insert_pairwise l [] (List.Pairwise.nil)

lemma length_insertByKeyDesc {α : Type} {key : α → ℚ} {a : α} {l : List α} :
    (insertByKeyDesc key a l).length = l.length + 1 := by
  induction l with
  | nil => simp [insertByKeyDesc]
  | cons b t ih =>
    by_cases h : key b < key a <;> simp [insertByKeyDesc, h, ih]

lemma length_sortByKeyDesc {α : Type} {key : α → ℚ} :
    ∀ (l acc : List α),
      (l.foldl (fun acc a => insertByKeyDesc key a acc) acc).length
        = acc.length + l.length := by
  intro l
  induction l with
  | nil => intro acc; simp
  | cons a t ih =>
    intro acc
    rw [List.foldl_cons, ih, length_insertByKeyDesc, List.length_cons]
    omega

lemma sortByKeyDesc_length {α : Type} (key : α → ℚ) (l : List α) :
    (sortByKeyDesc key l).length = l.length := by
  rw [sortByKeyDesc, length_sortByKeyDesc]
  simp

lemma sum_map_div {α : Type} (l : List α) (f : α → ℚ) (d : ℚ) :
    (l.map (fun a => f a / d)).sum = (l.map f).sum / d := by
  induction l with
  | nil => simp
  | cons a t ih => simp [ih, add_div]

lemma sum_map_nonneg_eq_zero {α : Type} {l : List α} {f : α → ℚ}
    (h0 : ∀ a ∈ l, 0 ≤ f a) (hs : (l.map f).sum ≤ 0) : ∀ a ∈ l, f a = 0 := by
  induction l with
  | nil => simp
  | cons a t ih =>
    have ha : 0 ≤ f a := h0 a (List.mem_cons_self a t)
    have ht : 0 ≤ (t.map f).sum := by
      apply List.sum_nonneg
      intro x hx
      rcases List.mem_map.mp hx with ⟨b, hb, rfl⟩
      exact h0 b (List.mem_cons_of_mem a hb)
    have hsum : f a + (t.map f).sum ≤ 0 := by simpa using hs
    have hfa : f a = 0 := le_antisymm (by linarith) ha
    intro x hx
    rcases List.mem_cons.mp hx with rfl | hx
    · exact hfa
    · exact ih (fun b hb => h0 b (List.mem_cons_of_mem a hb)) (by linarith) x hx

lemma headD_mem {α : Type} {l : List α} (h : l ≠ []) (d : α) : l.headD d ∈ l := by
  cases l with
  | nil => exact absurd rfl h
  | cons a t => simp

lemma minByKey_spec {α : Type} (key : α → ℚ) :
    ∀ (t : List α) (h : α),
      (minByKey key h t = h ∨ minByKey key h t ∈ t)
      ∧ key (minByKey key h t) ≤ key h
      ∧ ∀ d ∈ t, key (minByKey key h t) ≤ key d := by
  intro t
  induction t with
  | nil => intro h; simp [minByKey]
  | cons b t ih =>
    intro h
    by_cases hb : key b < key h
    · have hstep : minByKey key h (b :: t) = minByKey key b t := by
        simp [minByKey, hb]
      rcases ih b with ⟨hmem, hle, hall⟩
      refine ⟨?_, ?_, ?_⟩
      · rw [hstep]
        rcases hmem with h1 | h1
        · right; rw [h1]; exact List.mem_cons_self b t
        · right; exact List.mem_cons_of_mem b h1
      · rw [hstep]; exact le_trans hle (le_of_lt hb)
      · intro d hd
        rw [hstep]
        rcases List.mem_cons.mp hd with rfl | hd
        · exact hle
        · exact hall d hd
    · have hstep : minByKey key h (b :: t) = minByKey key h t := by
        simp [minByKey, hb]
      rcases ih h with ⟨hmem, hle, hall⟩
      refine ⟨?_, ?_, ?_⟩
      · rw [hstep]
        rcases hmem with h1 | h1
        · left; exact h1
        · right; exact List.mem_cons_of_mem b h1
      · rw [hstep]; exact hle
      · intro d hd
        rw [hstep]
        rcases List.mem_cons.mp hd with rfl | hd
        · exact le_trans hle (le_of_not_lt hb)
        · exact hall d hd

/-! ## Generic facts about the trade search -/

/-- The invariant every surviving suggestion satisfies, with `thr` the
engine's significance threshold. -/
def SuggestionOK (thr : ℚ) (s : Suggestion) : Prop :=
  17/20 ≤ s.fairness ∧ 0 < s.gain_a ∧ 0 < s.gain_b ∧ thr < s.gain_a + s.gain_b
  ∧ namesOf s.from_a ≠ namesOf s.from_b
  ∧ s.score = (s.gain_a + s.gain_b) * s.fairness

lemma tradeSearch_mem {fitA fitB : List RosterPlayer → List RosterPlayer → ℚ}
    {thr : ℚ} {w : Cat → ℚ} {a b : List RosterPlayer} {k : ℕ} {s : Suggestion}
    (hs : s ∈ tradeSearch fitA fitB thr w a b k) : SuggestionOK thr s := by
  have h1 : s ∈ sortByKeyDesc (fun s => s.score)
      (((allPairs (packsOf a) (packsOf b)).filter (tradeKeep fitA fitB thr w)).map
        (mkSuggestion fitA fitB w)) := List.mem_of_mem_take hs
  have h2 := mem_sortByKeyDesc.mp h1
  rcases List.mem_map.mp h2 with ⟨pr, hpr, rfl⟩
  have hkeep := (List.mem_filter.mp hpr).2
  rw [tradeKeep] at hkeep
  simp only [Bool.and_eq_true, decide_eq_true_eq] at hkeep
  rcases hkeep with ⟨⟨⟨⟨hnames, hfa⟩, hfb⟩, hthr⟩, hfair⟩
  exact ⟨hfair, hfa, hfb, hthr, hnames, rfl⟩

lemma tradeSearch_length {fitA fitB : List RosterPlayer → List RosterPlayer → ℚ}
    {thr : ℚ} {w : Cat → ℚ} {a b : List RosterPlayer} {k : ℕ} :
    (tradeSearch fitA fitB thr w a b k).length ≤ k :=
  List.length_take_le k _

lemma tradeSearch_sorted {fitA fitB : List RosterPlayer → List RosterPlayer → ℚ}
    {thr : ℚ} {w : Cat → ℚ} {a b : List RosterPlayer} {k : ℕ} :
    (tradeSearch fitA fitB thr w a b k).Pairwise (fun s t => t.score ≤ s.score) :=
  List.Pairwise.sublist (List.take_sublist k _) (sorted_sortByKeyDesc _ _)

/-- The trade categories as a literal list. -/
lemma TRADE_CATEGORIES_eq :
    TRADE_CATEGORIES = [.PTS, .REB, .AST, .STL, .BLK, .FGP, .FTP, .TPM] := rfl

/-! ## Concrete witness data

Two tiny two-team scenarios (one player per roster) on which the engines
produce a non-empty suggestion list: a rebound specialist against a scorer,
with the team z-score profiles arranged so that each side's preference
vector favours what it receives. -/

/-- Constant weight map 1 (the UI default for every category). -/
def witOne : Cat → ℚ := fun _ => 1

/-- A modelled exponential that is identically zero; the structural claims
hold for every modelled exponential, and this one keeps witness arithmetic
exact. -/
def witExp : ℚ → ℚ := fun _ => 0

/-- Witness player: a rebound specialist. -/
def witPA : RosterPlayer :=
  { display_name := "A1", fantasy_position := "PG", nba_team_abbrev := "LAL"
    stats := ⟨0, 2, 0, 0, 0, 0, 0, 0, 0⟩, zscores := StatLine.zero, injury_sev := 0 }

/-- Witness player: a scorer. -/
def witPB : RosterPlayer :=
  { display_name := "B1", fantasy_position := "PG", nba_team_abbrev := "BOS"
    stats := ⟨2, 0, 0, 0, 0, 0, 0, 0, 0⟩, zscores := StatLine.zero, injury_sev := 0 }

/-- Witness player A after the local z-score pass over the pooled rosters
with unit standard deviations. -/
def witPAz : RosterPlayer := { witPA with zscores := ⟨-1, 1, 0, 0, 0, 0, 0, 0, 0⟩ }

/-- Witness player B after the local z-score pass. -/
def witPBz : RosterPlayer := { witPB with zscores := ⟨1, -1, 0, 0, 0, 0, 0, 0, 0⟩ }

/-- Basic-engine witness team A: strong in points, owns the rebounder. -/
def witTA : TeamProfile :=
  { team_name := "TA", players := [witPA], raw_zscores := ⟨1, 0, 0, 0, 0, 0, 0, 0, 0⟩
    punt_categories := [], strength_categories := [] }

/-- Basic-engine witness team B: strong in rebounds, owns the scorer. -/
def witTB : TeamProfile :=
  { team_name := "TB", players := [witPB], raw_zscores := ⟨0, 1, 0, 0, 0, 0, 0, 0, 0⟩
    punt_categories := [], strength_categories := [] }

/-- Enhanced-engine witness team A: dominant in rebounds (so losing the
rebounder is dampened), near average in points (swing zone). -/
def witTAe : TeamProfile :=
  { team_name := "TA", players := [witPA], raw_zscores := ⟨0, 2, 0, 0, 0, 0, 0, 0, 0⟩
    punt_categories := [], strength_categories := [] }

/-- Enhanced-engine witness team B: dominant in points, near average in
rebounds. -/
def witTBe : TeamProfile :=
  { team_name := "TB", players := [witPB], raw_zscores := ⟨2, 0, 0, 0, 0, 0, 0, 0, 0⟩
    punt_categories := [], strength_categories := [] }

/-- An empty placeholder suggestion, used only as the default of `headD`. -/
def defaultSuggestion : Suggestion := ⟨[], [], 0, 0, 0, 0⟩

/-- C1: every suggestion either trade engine returns has fairness at least
0.85, strictly positive fit gains on both sides whose sum beats the
engine's significance threshold (0.05 basic, 0.08 enhanced), unequal
outgoing name sets, and score equal to (gain_a + gain_b) * fairness; the
returned list has at most max_trades entries and is sorted descending by
that score. -/
theorem trade_suggestion_invariants (ta tb : TeamProfile) (w stdv : Cat → ℚ)
    (expf : ℚ → ℚ) (k : ℕ) (co : Bool) :
    ((∀ s ∈ generate_trade_suggestions ta tb w stdv k, SuggestionOK (1/20) s)
      ∧ (generate_trade_suggestions ta tb w stdv k).length ≤ k
      ∧ (generate_trade_suggestions ta tb w stdv k).Pairwise
          (fun s t => t.score ≤ s.score))
    ∧ ((∀ s ∈ generate_enhanced_trade_suggestions expf ta tb w stdv k co,
          SuggestionOK (2/25) s)
      ∧ (generate_enhanced_trade_suggestions expf ta tb w stdv k co).length ≤ k
      ∧ (generate_enhanced_trade_suggestions expf ta tb w stdv k co).Pairwise
          (fun s t => t.score ≤ s.score)) :=
  ⟨⟨fun _ hs => tradeSearch_mem hs, tradeSearch_length, tradeSearch_sorted⟩,
   ⟨fun _ hs => tradeSearch_mem hs, tradeSearch_length, tradeSearch_sorted⟩⟩

set_option maxHeartbeats 4000000 in
/-- C1 witness: on the two concrete scenarios both engines return a
non-empty list whose first suggestion satisfies the invariant. -/
theorem trade_suggestion_invariants_witness :
    SuggestionOK (1/20)
      ((generate_trade_suggestions witTA witTB witOne witOne 3).headD defaultSuggestion)
    ∧ SuggestionOK (2/25)
      ((generate_enhanced_trade_suggestions witExp witTAe witTBe witOne witOne 3
          true).headD defaultSuggestion) := by
  have hne1 : generate_trade_suggestions witTA witTB witOne witOne 3 ≠ [] := by
    have hA2 : witTA.players.map (computeLocalZ (witTA.players ++ witTB.players) witOne)
        = [witPAz] := by
      norm_num [computeLocalZ, poolVals, popMean, effStd, StatLine.ofFn, StatLine.get,
        witTA, witTB, witPA, witPB, witPAz, StatLine.zero, witOne]
      decide
    have hB2 : witTB.players.map (computeLocalZ (witTA.players ++ witTB.players) witOne)
        = [witPBz] := by
      norm_num [computeLocalZ, poolVals, popMean, effStd, StatLine.ofFn, StatLine.get,
        witTA, witTB, witPA, witPB, witPBz, StatLine.zero, witOne]
      decide
    have hfa : score_package_for_team
        ⟨witTA.team_name, [witPAz], witTA.raw_zscores, witTA.punt_categories,
          witTA.strength_categories⟩
        (build_preference_vector
          ⟨witTA.team_name, [witPAz], witTA.raw_zscores, witTA.punt_categories,
            witTA.strength_categories⟩ witOne) [witPAz] [witPBz] = 6/19 := by
      norm_num [score_package_for_team, build_preference_vector, basicPrefRaw,
        basicPrefBase, prefTotal, package_effect, player_effect, durability,
        position_balance_delta, posList, countPos, primary_position, posNormalize,
        firstField, upperChars, StatLine.get, TRADE_CATEGORIES_eq, witOne,
        witTA, witPAz, witPA, witPBz, witPB]
    have hfb : score_package_for_team
        ⟨witTB.team_name, [witPBz], witTB.raw_zscores, witTB.punt_categories,
          witTB.strength_categories⟩
        (build_preference_vector
          ⟨witTB.team_name, [witPBz], witTB.raw_zscores, witTB.punt_categories,
            witTB.strength_categories⟩ witOne) [witPBz] [witPAz] = 6/19 := by
      norm_num [score_package_for_team, build_preference_vector, basicPrefRaw,
        basicPrefBase, prefTotal, package_effect, player_effect, durability,
        position_balance_delta, posList, countPos, primary_position, posNormalize,
        firstField, upperChars, StatLine.get, TRADE_CATEGORIES_eq, witOne,
        witTB, witPAz, witPA, witPBz, witPB]
    have hfair : fairness_score_for_packages witOne [witPAz] [witPBz] = 1 := by
      norm_num [fairness_score_for_packages, packageValue, market_value, durability,
        StatLine.get, TRADE_CATEGORIES_eq, witPAz, witPA, witPBz, witPB, witOne]
    have hkeep : tradeKeep
        (fun po pin => score_package_for_team
          ⟨witTA.team_name, [witPAz], witTA.raw_zscores, witTA.punt_categories,
            witTA.strength_categories⟩
          (build_preference_vector
            ⟨witTA.team_name, [witPAz], witTA.raw_zscores, witTA.punt_categories,
              witTA.strength_categories⟩ witOne) po pin)
        (fun po pin => score_package_for_team
          ⟨witTB.team_name, [witPBz], witTB.raw_zscores, witTB.punt_categories,
            witTB.strength_categories⟩
          (build_preference_vector
            ⟨witTB.team_name, [witPBz], witTB.raw_zscores, witTB.punt_categories,
              witTB.strength_categories⟩ witOne) po pin)
        (1/20) witOne ([witPAz], [witPBz]) = true := by
      simp only [tradeKeep, Bool.and_eq_true, decide_eq_true_eq, hfa, hfb, hfair]
      refine ⟨⟨⟨⟨by decide, by norm_num⟩, by norm_num⟩, by norm_num⟩, by norm_num⟩
    simp only [generate_trade_suggestions, hA2, hB2, tradeSearch]
    rw [show allPairs (packsOf [witPAz]) (packsOf [witPBz]) = [([witPAz], [witPBz])]
      from rfl]
    simp only [List.filter_cons, List.filter_nil]
    rw [hkeep]
    simp [sortByKeyDesc, insertByKeyDesc, mkSuggestion]
  have hne2 : generate_enhanced_trade_suggestions witExp witTAe witTBe witOne witOne 3
      true ≠ [] := by
    have hA2 : witTAe.players.map
        (computeLocalZ (witTAe.players ++ witTBe.players) witOne) = [witPAz] := by
      norm_num [computeLocalZ, poolVals, popMean, effStd, StatLine.ofFn, StatLine.get,
        witTAe, witTBe, witPA, witPB, witPAz, StatLine.zero, witOne]
      decide
    have hB2 : witTBe.players.map
        (computeLocalZ (witTAe.players ++ witTBe.players) witOne) = [witPBz] := by
      norm_num [computeLocalZ, poolVals, popMean, effStd, StatLine.ofFn, StatLine.get,
        witTAe, witTBe, witPA, witPB, witPBz, StatLine.zero, witOne]
      decide
    have hfa : score_package_enhanced
        ⟨witTAe.team_name, [witPAz], witTAe.raw_zscores, witTAe.punt_categories,
          witTAe.strength_categories⟩
        (build_enhanced_preference_vector witExp
          ⟨witTAe.team_name, [witPAz], witTAe.raw_zscores, witTAe.punt_categories,
            witTAe.strength_categories⟩ witOne
          (some ⟨witTBe.team_name, [witPBz], witTBe.raw_zscores, witTBe.punt_categories,
            witTBe.strength_categories⟩))
        [witPAz] [witPBz] = 305263/1325000 := by
      norm_num [score_package_enhanced, enhancedStep, category_swing_value, corrPenalty,
        hasPosGain, CORRELATIONS, volatility, build_enhanced_preference_vector,
        enhancedPrefRaw, enhancedAdjusted, enhancedBase, diminishing_returns, prefTotal,
        package_effect, player_effect, durability, position_balance_delta, posList,
        countPos, primary_position, posNormalize, firstField, upperChars, StatLine.get,
        TRADE_CATEGORIES_eq, witExp, witOne, witTAe, witTBe, witPAz, witPA, witPBz,
        witPB, List.lookup]
      norm_num +decide
    have hfb : score_package_enhanced
        ⟨witTBe.team_name, [witPBz], witTBe.raw_zscores, witTBe.punt_categories,
          witTBe.strength_categories⟩
        (build_enhanced_preference_vector witExp
          ⟨witTBe.team_name, [witPBz], witTBe.raw_zscores, witTBe.punt_categories,
            witTBe.strength_categories⟩ witOne
          (some ⟨witTAe.team_name, [witPAz], witTAe.raw_zscores, witTAe.punt_categories,
            witTAe.strength_categories⟩))
        [witPBz] [witPAz] = 779973/3312500 := by
      norm_num [score_package_enhanced, enhancedStep, category_swing_value, corrPenalty,
        hasPosGain, CORRELATIONS, volatility, build_enhanced_preference_vector,
        enhancedPrefRaw, enhancedAdjusted, enhancedBase, diminishing_returns, prefTotal,
        package_effect, player_effect, durability, position_balance_delta, posList,
        countPos, primary_position, posNormalize, firstField, upperChars, StatLine.get,
        TRADE_CATEGORIES_eq, witExp, witOne, witTAe, witTBe, witPAz, witPA, witPBz,
        witPB, List.lookup]
      norm_num +decide
    have hfair : fairness_score_for_packages witOne [witPAz] [witPBz] = 1 := by
      norm_num [fairness_score_for_packages, packageValue, market_value, durability,
        StatLine.get, TRADE_CATEGORIES_eq, witPAz, witPA, witPBz, witPB, witOne]
    have hkeep : tradeKeep
        (fun po pin => score_package_enhanced
          ⟨witTAe.team_name, [witPAz], witTAe.raw_zscores, witTAe.punt_categories,
            witTAe.strength_categories⟩
          (build_enhanced_preference_vector witExp
            ⟨witTAe.team_name, [witPAz], witTAe.raw_zscores, witTAe.punt_categories,
              witTAe.strength_categories⟩ witOne
            (some ⟨witTBe.team_name, [witPBz], witTBe.raw_zscores,
              witTBe.punt_categories, witTBe.strength_categories⟩)) po pin)
        (fun po pin => score_package_enhanced
          ⟨witTBe.team_name, [witPBz], witTBe.raw_zscores, witTBe.punt_categories,
            witTBe.strength_categories⟩
          (build_enhanced_preference_vector witExp
            ⟨witTBe.team_name, [witPBz], witTBe.raw_zscores, witTBe.punt_categories,
              witTBe.strength_categories⟩ witOne
            (some ⟨witTAe.team_name, [witPAz], witTAe.raw_zscores,
              witTAe.punt_categories, witTAe.strength_categories⟩)) po pin)
        (2/25) witOne ([witPAz], [witPBz]) = true := by
      simp only [tradeKeep, Bool.and_eq_true, decide_eq_true_eq, hfa, hfb, hfair]
      refine ⟨⟨⟨⟨by decide, by norm_num⟩, by norm_num⟩, by norm_num⟩, by norm_num⟩
    simp only [generate_enhanced_trade_suggestions, hA2, hB2, tradeSearch, if_true]
    rw [show allPairs (packsOf [witPAz]) (packsOf [witPBz]) = [([witPAz], [witPBz])]
      from rfl]
    simp only [List.filter_cons, List.filter_nil]
    rw [hkeep]
    simp [sortByKeyDesc, insertByKeyDesc, mkSuggestion]
  exact ⟨(trade_suggestion_invariants witTA witTB witOne witOne witExp 3 true).1.1 _
      (headD_mem hne1 defaultSuggestion),
    (trade_suggestion_invariants witTAe witTBe witOne witOne witExp 3 true).2.1 _
      (headD_mem hne2 defaultSuggestion)⟩

/-! ## Facts about the matchup need vector and the normalized vectors -/

lemma needPre_nonneg (my opp : Cat → Option ℚ) (c : Cat) : 0 ≤ needPre my opp c := by
  rw [needPre]
  cases hm : my c with
  | none => simp
  | some mv =>
    cases ho : opp c with
    | none => simp
    | some ov =>
      simp only []
      set margin := if c = Cat.TOV then ov - mv else mv - ov with hmg
      set rel := |margin| / max |ov| (1/1000) with hrel
      have hrel0 : 0 ≤ rel := by
        rw [hrel]
        apply div_nonneg (abs_nonneg _)
        exact le_trans (by norm_num) (le_max_right _ _)
      split_ifs with h1 h2 h3 h4
      · have : rel / (1/20) = 20 * rel := by ring
        nlinarith
      · exact le_refl 0
      · norm_num
      · norm_num
      · norm_num

lemma needPunted_nonneg (my opp : Cat → Option ℚ) (punts : List Cat) (c : Cat) :
    0 ≤ needPunted my opp punts c := by
  rw [needPunted]
  apply mul_nonneg (needPre_nonneg my opp c)
  split_ifs <;> norm_num

lemma needPunted_all_zero {my opp : Cat → Option ℚ} {punts : List Cat}
    (h : needTotal my opp punts ≤ 0) : ∀ c, needPunted my opp punts c = 0 := by
  intro c
  exact sum_map_nonneg_eq_zero (fun a _ => needPunted_nonneg my opp punts a) h c
    (mem_CATEGORIES c)

lemma prefVec_sum (raw : Cat → ℚ) :
    (TRADE_CATEGORIES.map
      (if prefTotal raw ≤ 0 then (fun _ => 1 / (TRADE_CATEGORIES.length : ℚ))
       else fun c => raw c / prefTotal raw)).sum = 1 := by
  by_cases h : prefTotal raw ≤ 0
  · rw [if_pos h, TRADE_CATEGORIES_eq]
    norm_num [TRADE_CATEGORIES_eq]
  · rw [if_neg h, sum_map_div]
    have htot : (TRADE_CATEGORIES.map raw).sum = prefTotal raw := rfl
    rw [htot]
    exact div_self (ne_of_gt (lt_of_not_le h))

/-- C2: the matchup need vector computes the policy table exactly: margin
from the team's point of view (inverted for turnovers), relative gap
against max(|opponent value|, 1e-3), the five-row need table, a 0.1 factor
on punted categories, skipped (zero) entries for missing or non-numeric
values, and normalization to sum 1 when the total is positive with the
all-zero vector returned otherwise. -/
theorem matchup_need_vector_spec (my opp : Cat → Option ℚ) (punts : List Cat) :
    (∀ c mv ov, my c = some mv → opp c = some ov →
      needPre my opp c =
        (let margin := if c = Cat.TOV then ov - mv else mv - ov
         let rel := |margin| / max |ov| (1/1000)
         if 0 ≤ margin then (if rel < 1/20 then 2/5 * (1 - rel / (1/20)) else 0)
         else if rel < 1/20 then 1 else if rel < 3/20 then 3/5 else 1/5))
    ∧ (∀ c, my c = none ∨ opp c = none → needPre my opp c = 0)
    ∧ (∀ c, needPunted my opp punts c
        = needPre my opp c * (if c ∈ punts then 1/10 else 1))
    ∧ (0 < needTotal my opp punts → ∀ c,
        matchup_need_vector my opp punts c
          = needPunted my opp punts c / needTotal my opp punts)
    ∧ (needTotal my opp punts ≤ 0 → ∀ c, matchup_need_vector my opp punts c = 0) := by
  refine ⟨?_, ?_, ?_, ?_, ?_⟩
  · intro c mv ov hm ho
    rw [needPre, hm, ho]
  · intro c h
    rcases h with h | h
    · rw [needPre, h]
    · cases hm : my c with
      | none => rw [needPre, hm]
      | some mv => rw [needPre, hm, h]
  · intro c
    rfl
  · intro h c
    rw [matchup_need_vector]
    simp only [if_neg (not_le.mpr h)]
  · intro h c
    rw [matchup_need_vector]
    simp only [if_pos h]
    exact needPunted_all_zero h c

/-- Concrete live snapshot for the C2 witness: losing points 99 to 100
(one percent, flippable), winning rebounds 120 to 100 (comfortable). -/
def witMy : Cat → Option ℚ := fun c =>
  match c with
  | .PTS => some 99
  | .REB => some 120
  | _ => none

/-- The opposing snapshot for the C2 witness. -/
def witOpp : Cat → Option ℚ := fun c =>
  match c with
  | .PTS => some 100
  | .REB => some 100
  | _ => none

/-- C2 witness: on the concrete snapshot the flippable one-percent loss in
points yields pre-normalization need 1, the comfortable rebound lead yields
0, and a missing category yields 0. -/
theorem matchup_need_vector_spec_witness :
    needPre witMy witOpp Cat.PTS = 1 ∧ needPre witMy witOpp Cat.REB = 0
    ∧ needPre witMy witOpp Cat.AST = 0 := by
  have h := matchup_need_vector_spec witMy witOpp []
  have hx1 : (Cat.PTS = Cat.TOV) = False := eq_false (by decide)
  have hx2 : (Cat.REB = Cat.TOV) = False := eq_false (by decide)
  refine ⟨?_, ?_, ?_⟩
  · rw [h.1 Cat.PTS 99 100 rfl rfl]
    norm_num [hx1]
  · rw [h.1 Cat.REB 120 100 rfl rfl]
    norm_num [hx2]
  · exact h.2.1 Cat.AST (Or.inl rfl)

/-- C9: every normalized vector the engines produce sums to 1 when its
pre-normalization total is positive, and the defined fallbacks are used
otherwise: both preference builders always sum to 1 (uniform 1/8 fallback
when every entry is non-positive), and the matchup need vector normalizes
to sum 1 when its total is positive and is all-zero otherwise. -/
theorem vector_normalization_spec (team : TeamProfile) (w : Cat → ℚ)
    (expf : ℚ → ℚ) (opp : Option TeamProfile) (my o2 : Cat → Option ℚ)
    (punts : List Cat) :
    ((TRADE_CATEGORIES.map (build_preference_vector team w)).sum = 1)
    ∧ ((TRADE_CATEGORIES.map (build_enhanced_preference_vector expf team w opp)).sum
        = 1)
    ∧ (prefTotal (basicPrefRaw team w) ≤ 0 →
        ∀ c, build_preference_vector team w c = 1 / (TRADE_CATEGORIES.length : ℚ))
    ∧ (prefTotal (enhancedPrefRaw expf team w opp) ≤ 0 →
        ∀ c, build_enhanced_preference_vector expf team w opp c
          = 1 / (TRADE_CATEGORIES.length : ℚ))
    ∧ (0 < needTotal my o2 punts →
        (CATEGORIES.map (matchup_need_vector my o2 punts)).sum = 1)
    ∧ (needTotal my o2 punts ≤ 0 → ∀ c, matchup_need_vector my o2 punts c = 0) := by
  refine ⟨prefVec_sum (basicPrefRaw team w),
    prefVec_sum (enhancedPrefRaw expf team w opp), ?_, ?_, ?_, ?_⟩
  · intro h c
    show (if prefTotal (basicPrefRaw team w) ≤ 0 then
        (fun _ => 1 / (TRADE_CATEGORIES.length : ℚ))
      else fun c => basicPrefRaw team w c / prefTotal (basicPrefRaw team w)) c
        = 1 / (TRADE_CATEGORIES.length : ℚ)
    rw [if_pos h]
  · intro h c
    show (if prefTotal (enhancedPrefRaw expf team w opp) ≤ 0 then
        (fun _ => 1 / (TRADE_CATEGORIES.length : ℚ))
      else fun c => enhancedPrefRaw expf team w opp c
        / prefTotal (enhancedPrefRaw expf team w opp)) c
        = 1 / (TRADE_CATEGORIES.length : ℚ)
    rw [if_pos h]
  · intro h
    have hvec : matchup_need_vector my o2 punts
        = fun c => needPunted my o2 punts c / needTotal my o2 punts := by
      rw [matchup_need_vector]
      simp only [if_neg (not_le.mpr h)]
    rw [hvec, sum_map_div]
    exact div_self (ne_of_gt h)
  · intro h c
    rw [matchup_need_vector]
    simp only [if_pos h]
    exact needPunted_all_zero h c

/-- C9 witness: on a concrete team profile both preference vectors sum to
1, and on the concrete losing snapshot with a positive total the matchup
need vector sums to 1. -/
theorem vector_normalization_spec_witness :
    ((TRADE_CATEGORIES.map (build_preference_vector witTA witOne)).sum = 1)
    ∧ ((TRADE_CATEGORIES.map
        (build_enhanced_preference_vector witExp witTA witOne none)).sum = 1)
    ∧ ((CATEGORIES.map (matchup_need_vector witMy witOpp [])).sum = 1) := by
  have h := vector_normalization_spec witTA witOne witExp none witMy witOpp []
  refine ⟨h.1, h.2.1, h.2.2.2.2.1 ?_⟩
  have h1 : needPre witMy witOpp Cat.PTS = 1 := by
    have hx1 : (Cat.PTS = Cat.TOV) = False := eq_false (by decide)
    rw [(matchup_need_vector_spec witMy witOpp []).1 Cat.PTS 99 100 rfl rfl]
    norm_num [hx1]
  have hmem : Cat.PTS ∈ CATEGORIES := by decide
  have hsum : needPunted witMy witOpp [] Cat.PTS ≤ needTotal witMy witOpp [] := by
    rw [needTotal]
    refine List.single_le_sum ?_ _ (List.mem_map_of_mem _ hmem)
    intro x hx
    rcases List.mem_map.mp hx with ⟨a, _, rfl⟩
    exact needPunted_nonneg witMy witOpp [] a
  have hpos : 0 < needPunted witMy witOpp [] Cat.PTS := by
    rw [needPunted, h1]
    norm_num
  linarith

/-- C5: the fairness score equals 1 - |va - vb| / ((|va| + |vb|)/2) clamped
to [0,1], where each player's market value is the weighted sum of its local
z-scores times the durability discount; it is exactly 1 when the average
absolute package value is at most 1e-6, and exactly 1 whenever the two
packages have equal total market value. -/
theorem fairness_score_spec (pa pb : List RosterPlayer) (w : Cat → ℚ) :
    ((|packageValue w pa| + |packageValue w pb|) / 2 ≤ 1/1000000 →
      fairness_score_for_packages w pa pb = 1)
    ∧ (1/1000000 < (|packageValue w pa| + |packageValue w pb|) / 2 →
      fairness_score_for_packages w pa pb
        = min 1 (max 0 (1 - |packageValue w pa - packageValue w pb|
            / ((|packageValue w pa| + |packageValue w pb|) / 2))))
    ∧ (0 ≤ fairness_score_for_packages w pa pb)
    ∧ (fairness_score_for_packages w pa pb ≤ 1)
    ∧ (packageValue w pa = packageValue w pb →
        fairness_score_for_packages w pa pb = 1)
    ∧ (∀ p, market_value w p
        = ((TRADE_CATEGORIES.map (fun c => w c * p.zscores.get c)).sum)
          * (1 - 7/10 * max 0 (min 1 p.injury_sev))) := by
  set va := packageValue w pa with hva
  set vb := packageValue w pb with hvb
  have hdef : fairness_score_for_packages w pa pb
      = if (|va| + |vb|) / 2 ≤ 1/1000000 then 1
        else max 0 (1 - |va - vb| / ((|va| + |vb|) / 2)) := rfl
  refine ⟨?_, ?_, ?_, ?_, ?_, fun p => rfl⟩
  · intro h
    rw [hdef, if_pos h]
  · intro h
    rw [hdef, if_neg (not_le.mpr h)]
    have havg : 0 < (|va| + |vb|) / 2 := lt_trans (by norm_num) h
    have hd : 0 ≤ |va - vb| / ((|va| + |vb|) / 2) :=
      div_nonneg (abs_nonneg _) (le_of_lt havg)
    have hle : max 0 (1 - |va - vb| / ((|va| + |vb|) / 2)) ≤ 1 :=
      max_le (by norm_num) (by linarith)
    exact (min_eq_right hle).symm
  · rw [hdef]
    split_ifs
    · norm_num
    · exact le_max_left 0 _
  · rw [hdef]
    split_ifs with h
    · exact le_refl 1
    · have havg : 0 < (|va| + |vb|) / 2 := lt_trans (by norm_num) (not_le.mp h)
      have hd : 0 ≤ |va - vb| / ((|va| + |vb|) / 2) :=
        div_nonneg (abs_nonneg _) (le_of_lt havg)
      exact max_le (by norm_num) (by linarith)
  · intro h
    rw [hdef]
    split_ifs with hc
    · rfl
    · rw [h]
      simp

/-- A lone positive-value player for the C5 witness. -/
def witPC : RosterPlayer :=
  { display_name := "C1", fantasy_position := "SG", nba_team_abbrev := "DEN"
    stats := StatLine.zero, zscores := ⟨1, 0, 0, 0, 0, 0, 0, 0, 0⟩, injury_sev := 0 }

/-- C5 witness: two worthless packages score exactly 1; a one-sided package
against an empty one falls to the clamped value 0. -/
theorem fairness_score_spec_witness :
    fairness_score_for_packages witOne ([] : List RosterPlayer) [] = 1
    ∧ fairness_score_for_packages witOne [witPC] [] = 0 := by
  constructor
  · refine (fairness_score_spec [] [] witOne).1 ?_
    norm_num [packageValue]
  · have hv : packageValue witOne [witPC] = 1 := by
      norm_num [packageValue, market_value, durability, StatLine.get,
        TRADE_CATEGORIES_eq, witPC, witOne]
    have hz : packageValue witOne ([] : List RosterPlayer) = 0 := by
      norm_num [packageValue]
    have h := (fairness_score_spec [witPC] [] witOne).2.1
    rw [hv, hz] at h
    rw [h (by norm_num)]
    norm_num

/-! ## Facts about the injury model -/

lemma statusBase_nonneg (s : String) : 0 ≤ statusBase s := by
  rw [statusBase]
  split_ifs <;> norm_num

lemma durationSeverity_nonneg (d : String) : 0 ≤ durationSeverity d := by
  rw [durationSeverity]
  rcases hfd : findDuration (lowerChars d.toList) with _ | ⟨n, isDay⟩
  · norm_num
  · refine le_min (by norm_num) ?_
    split_ifs <;> positivity

lemma durationSeverity_le_one (d : String) : durationSeverity d ≤ 1 := by
  rw [durationSeverity]
  rcases hfd : findDuration (lowerChars d.toList) with _ | ⟨n, isDay⟩
  · norm_num
  · exact min_le_left 1 _

/-- C4: injury severity is the maximum of the keyword-tier base and the
duration severity, clamped to [0,1]; the duration converts days 1:1 and
weeks times 3 into games and caps games/10 at 1; and the three anchor
values hold: severity("","") = 0, severity("OUT","") = 1, and
severity("", "out for 3 weeks") is at least 9/10. -/
theorem estimate_injury_severity_spec (status detail : String) :
    estimate_injury_severity status detail
      = min 1 (max (statusBase status) (durationSeverity detail))
    ∧ 0 ≤ estimate_injury_severity status detail
    ∧ estimate_injury_severity status detail ≤ 1
    ∧ (∀ n : ℕ, findDuration (lowerChars detail.toList) = some (n, true) →
        durationSeverity detail = min 1 ((n : ℚ) / 10))
    ∧ (∀ n : ℕ, findDuration (lowerChars detail.toList) = some (n, false) →
        durationSeverity detail = min 1 (3 * (n : ℚ) / 10))
    ∧ estimate_injury_severity "" "" = 0
    ∧ estimate_injury_severity "OUT" "" = 1
    ∧ 9/10 ≤ estimate_injury_severity "" "out for 3 weeks" := by
  have heq : estimate_injury_severity status detail
      = min 1 (max (statusBase status) (durationSeverity detail)) := by
    rw [estimate_injury_severity]
    split_ifs with h
    · rcases h with ⟨h1, h2⟩
      subst h1
      subst h2
      have hsb : statusBase "" = 0 := rfl
      have hds : durationSeverity "" = 0 := rfl
      rw [hsb, hds]
      norm_num
    · rfl
  refine ⟨heq, ?_, ?_, ?_, ?_, rfl, ?_, ?_⟩
  · rw [heq]
    refine le_min (by norm_num) (le_trans (statusBase_nonneg status) (le_max_left _ _))
  · rw [heq]
    exact min_le_left 1 _
  · intro n hn
    rw [durationSeverity, hn]
    simp
  · intro n hn
    rw [durationSeverity, hn]
    simp
  · rw [estimate_injury_severity, if_neg (by simp)]
    have hsb : statusBase "OUT" = 1 := rfl
    have hds : durationSeverity "" = 0 := rfl
    rw [hsb, hds]
    norm_num
  · rw [estimate_injury_severity, if_neg (by simp)]
    have hsb : statusBase "" = 0 := rfl
    have hd : findDuration (lowerChars ("out for 3 weeks" : String).toList)
        = some (3, false) := rfl
    rw [hsb, durationSeverity, hd]
    norm_num

/-- C4 witness: the anchor evaluations, obtained from the theorem at the
concrete strings. -/
theorem estimate_injury_severity_spec_witness :
    estimate_injury_severity "" "" = 0
    ∧ estimate_injury_severity "OUT" "" = 1
    ∧ 9/10 ≤ estimate_injury_severity "" "out for 3 weeks" := by
  refine ⟨(estimate_injury_severity_spec "" "").2.2.2.2.2.1, ?_, ?_⟩
  · exact (estimate_injury_severity_spec "OUT" "").2.2.2.2.2.2.1
  · exact (estimate_injury_severity_spec "" "out for 3 weeks").2.2.2.2.2.2.2

/-- C10: status keyword matching is substring-based on the whole uppercased
status string: any status containing OUT, INJ, IL or IR anywhere gives
severity 1 outright, a status containing the letter Q that matches no
higher tier gives 0.6 when no duration is found, and in particular the
status "AVAILABLE" (which contains "IL") with an empty detail scores
exactly 1. -/
theorem injury_substring_matching_spec :
    (∀ status detail : String,
      hasAnyTag (upperChars status.toList) ["OUT", "INJ", "IL", "IR"] = true →
      estimate_injury_severity status detail = 1)
    ∧ (∀ status detail : String,
      hasAnyTag (upperChars status.toList) ["OUT", "INJ", "IL", "IR"] = false →
      hasAnyTag (upperChars status.toList) ["DOUBTFUL"] = false →
      hasSubstr ("Q".toList) (upperChars status.toList) = true →
      findDuration (lowerChars detail.toList) = none →
      estimate_injury_severity status detail = 3/5)
    ∧ estimate_injury_severity "AVAILABLE" "" = 1 := by
  have hpart1 : ∀ status detail : String,
      hasAnyTag (upperChars status.toList) ["OUT", "INJ", "IL", "IR"] = true →
      estimate_injury_severity status detail = 1 := by
    intro status detail h
    have hs : ¬(status = "" ∧ detail = "") := by
      rintro ⟨h1, _⟩
      subst h1
      exact absurd h (by decide)
    have hb : statusBase status = 1 := by
      simp only [statusBase]
      rw [if_pos h]
    rw [estimate_injury_severity, if_neg hs, hb]
    exact min_eq_left (le_max_left 1 _)
  refine ⟨hpart1, ?_, hpart1 "AVAILABLE" "" (by decide)⟩
  intro status detail h1 h2 hq hdur
  have hs : ¬(status = "" ∧ detail = "") := by
    rintro ⟨hx, _⟩
    subst hx
    exact absurd hq (by decide)
  have h3 : hasAnyTag (upperChars status.toList) ["QUESTIONABLE", "QST", "Q"]
      = true := by
    simp [hasAnyTag] at hq ⊢
    exact Or.inr (Or.inr hq)
  have hb : statusBase status = 3/5 := by
    simp only [statusBase]
    rw [if_neg (by rw [h1]; simp), if_neg (by rw [h2]; simp), if_pos h3]
  have hd : durationSeverity detail = 0 := by
    rw [durationSeverity, hdur]
  rw [estimate_injury_severity, if_neg hs, hb, hd]
  norm_num

/-- C10 witness: the unrelated word "oiled" contains "IL" after uppercasing
and scores 1; the lone letter "q" scores 0.6. -/
theorem injury_substring_matching_spec_witness :
    estimate_injury_severity "oiled" "" = 1
    ∧ estimate_injury_severity "q" "" = 3/5 := by
  constructor
  · exact injury_substring_matching_spec.1 "oiled" "" (by decide)
  · exact injury_substring_matching_spec.2.1 "q" "" (by decide) (by decide)
      (by decide) rfl

/-! ## Facts about the normalizer -/

lemma sum_map_sub_const (l : List ℚ) (c : ℚ) :
    (l.map (fun v => v - c)).sum = l.sum - l.length * c := by
  induction l with
  | nil => simp
  | cons a t ih =>
    simp only [List.map_cons, List.sum_cons, ih, List.length_cons]
    push_cast
    ring

lemma popMean_replicate {n : ℕ} (hn : 0 < n) (a : ℚ) :
    popMean (List.replicate n a) = a := by
  rw [popMean, List.sum_replicate, List.length_replicate, nsmul_eq_mul]
  have hne : (n : ℚ) ≠ 0 := Nat.cast_ne_zero.mpr (Nat.pos_iff_ne_zero.mp hn)
  field_simp

lemma popVariance_replicate {n : ℕ} (hn : 0 < n) (a : ℚ) :
    popVariance (List.replicate n a) = 0 := by
  rw [popVariance, popMean_replicate hn, List.map_replicate]
  simp

/-- C6: the normalizer computes z = (value - population mean) / population
standard deviation with 1 substituted for a zero standard deviation, so a
constant list yields all zeros; for a list with two distinct values the
population variance is positive, and whenever the standard deviation
squares to the population variance the resulting z-scores have population
mean 0 and population variance 1; the league-wide computation negates z for
lower-is-better categories and leaves it unchanged otherwise. -/
theorem stat_normalizer_spec (vals : List ℚ) (std : ℚ) (n : ℕ) (a : ℚ) :
    (zscoresWith vals std
      = vals.map (fun v => (v - popMean vals) / (if std = 0 then 1 else std)))
    ∧ (vals ≠ [] → std ≠ 0 → popMean (zscoresWith vals std) = 0)
    ∧ (vals ≠ [] → std ≠ 0 → std * std = popVariance vals →
        popVariance (zscoresWith vals std) = 1)
    ∧ (∀ x ∈ vals, ∀ y ∈ vals, x ≠ y → 0 < popVariance vals)
    ∧ (0 < n → popVariance (List.replicate n a) = 0)
    ∧ (0 < n → std * std = popVariance (List.replicate n a) →
        zscoresWith (List.replicate n a) std = List.replicate n 0)
    ∧ (leagueZWith vals std true = (zscoresWith vals std).map (fun z => -z))
    ∧ (leagueZWith vals std false = zscoresWith vals std) := by
  have hmean : vals ≠ [] → std ≠ 0 → popMean (zscoresWith vals std) = 0 := by
    intro hne hstd
    have hlen : (vals.length : ℚ) ≠ 0 :=
      Nat.cast_ne_zero.mpr (Nat.pos_iff_ne_zero.mp (List.length_pos.mpr hne))
    have hz : zscoresWith vals std = vals.map (fun v => (v - popMean vals) / std) := by
      rw [zscoresWith, effStd, if_neg hstd]
    have hcancel : (vals.length : ℚ) * (vals.sum / vals.length) = vals.sum := by
      field_simp
    rw [popMean, hz, List.length_map, sum_map_div, sum_map_sub_const, popMean,
      hcancel]
    simp
  refine ⟨rfl, hmean, ?_, ?_, fun hn => popVariance_replicate hn a, ?_, ?_, ?_⟩
  · intro hne hstd hvar
    have hlen : (vals.length : ℚ) ≠ 0 :=
      Nat.cast_ne_zero.mpr (Nat.pos_iff_ne_zero.mp (List.length_pos.mpr hne))
    have hz : zscoresWith vals std = vals.map (fun v => (v - popMean vals) / std) := by
      rw [zscoresWith, effStd, if_neg hstd]
    have hzero := hmean hne hstd
    rw [popVariance, hzero, hz, List.length_map, List.map_map]
    have hcong : ((fun v => (v - 0) * (v - 0)) ∘ (fun v => (v - popMean vals) / std))
        = fun v => ((v - popMean vals) * (v - popMean vals)) / (std * std) := by
      funext v
      simp only [Function.comp_apply, sub_zero]
      rw [div_mul_div_comm]
    rw [hcong, sum_map_div]
    have hS : (vals.map (fun v => (v - popMean vals) * (v - popMean vals))).sum
        = std * std * vals.length := by
      rw [popVariance] at hvar
      field_simp at hvar
      linarith
    rw [hS]
    have hstd2 : std * std ≠ 0 := mul_ne_zero hstd hstd
    field_simp
  · intro x hx y hy hxy
    have hlenpos : (0:ℚ) < (vals.length : ℚ) := by
      exact_mod_cast List.length_pos.mpr (List.ne_nil_of_mem hx)
    rw [popVariance]
    apply div_pos ?_ hlenpos
    by_contra hle
    push_neg at hle
    have hall := sum_map_nonneg_eq_zero
      (fun b _ => mul_self_nonneg (b - popMean vals)) hle
    have hx0 : x = popMean vals :=
      sub_eq_zero.mp (mul_self_eq_zero.mp (hall x hx))
    have hy0 : y = popMean vals :=
      sub_eq_zero.mp (mul_self_eq_zero.mp (hall y hy))
    exact hxy (hx0.trans hy0.symm)
  · intro hn hvar
    have hstd0 : std = 0 := by
      rw [popVariance_replicate hn a] at hvar
      exact mul_self_eq_zero.mp hvar
    rw [zscoresWith, effStd, if_pos hstd0, popMean_replicate hn, List.map_replicate]
    simp
  · simp [leagueZWith]
  · simp [leagueZWith]

/-- C6 witness: on the two-element list [0, 2] (variance 1, so the exact
standard deviation 1 is rational) the z-scores have mean 0 and variance 1,
the distinct pair forces positive variance, and a constant list maps to all
zeros through the fallback. -/
theorem stat_normalizer_spec_witness :
    popMean (zscoresWith [0, 2] 1) = 0
    ∧ popVariance (zscoresWith [0, 2] 1) = 1
    ∧ 0 < popVariance [0, 2]
    ∧ zscoresWith (List.replicate 2 5) 0 = List.replicate 2 0 := by
  have h := stat_normalizer_spec [0, 2] 1 2 5
  have hvar : (1:ℚ) * 1 = popVariance [0, 2] := by
    norm_num [popVariance, popMean]
  have h2 := stat_normalizer_spec ([] : List ℚ) 0 2 5
  have hvar2 : (0:ℚ) * 0 = popVariance (List.replicate 2 (5:ℚ)) := by
    rw [popVariance_replicate (by norm_num) 5]
    norm_num
  exact ⟨h.2.1 (by simp) one_ne_zero,
    h.2.2.1 (by simp) one_ne_zero hvar,
    h.2.2.2.1 0 (by simp) 2 (by simp) (by norm_num),
    h2.2.2.2.2.2.1 (by norm_num) hvar2⟩

/-- The claim's spelling of the streaming score: need times local z times
durability, summed over the trade categories. -/
lemma streamScore_formula (needs : Cat → ℚ) (p : RosterPlayer) :
    streamScore needs p
      = (TRADE_CATEGORIES.map (fun c =>
          needs c * p.zscores.get c * (1 - 7/10 * max 0 (min 1 p.injury_sev)))).sum := by
  rw [streamScore]
  apply congrArg List.sum
  apply List.map_congr_left
  intro c _
  rw [player_effect, durability]
  ring

/-- C7: the streaming recommender never returns a player whose (uppercased)
NBA team is absent from a non-empty playing-today set, never returns a
non-positive score, scores every returned player as the need-weighted
durability-discounted z-score sum, returns at most max_results rows sorted
descending by score, and with an empty (unknown) schedule no player is
filtered out by the schedule check. -/
theorem streaming_adds_spec (needs : Cat → ℚ) (pool : List RosterPlayer)
    (teams_playing : List String) (k : ℕ) :
    (∀ r ∈ recommend_streaming_adds needs pool teams_playing k,
      (teams_playing ≠ [] → upperStr r.player.nba_team_abbrev ∈ teams_playing)
      ∧ 0 < r.score
      ∧ r.score = (TRADE_CATEGORIES.map (fun c =>
          needs c * r.player.zscores.get c
            * (1 - 7/10 * max 0 (min 1 r.player.injury_sev)))).sum)
    ∧ (recommend_streaming_adds needs pool teams_playing k).length ≤ k
    ∧ (recommend_streaming_adds needs pool teams_playing k).Pairwise
        (fun r s => s.score ≤ r.score)
    ∧ (∀ p, scheduleOk [] p = true)
    ∧ (teams_playing = [] → ∀ p ∈ pool, 0 < streamScore needs p →
        mkStreamResult needs teams_playing p
          ∈ streamCandidates needs pool teams_playing) := by
  refine ⟨?_, List.length_take_le k _,
    List.Pairwise.sublist (List.take_sublist k _) (sorted_sortByKeyDesc _ _),
    fun p => rfl, ?_⟩
  · intro r hr
    have h1 : r ∈ sortByKeyDesc (fun r => r.score)
        (streamCandidates needs pool teams_playing) := List.mem_of_mem_take hr
    have h2 := mem_sortByKeyDesc.mp h1
    rcases List.mem_map.mp h2 with ⟨p, hp, rfl⟩
    have hkeep := (List.mem_filter.mp hp).2
    simp only [Bool.and_eq_true, decide_eq_true_eq] at hkeep
    rcases hkeep with ⟨hsched, hscore⟩
    refine ⟨?_, hscore, streamScore_formula needs p⟩
    intro hne
    rw [scheduleOk] at hsched
    rcases Bool.or_eq_true_iff.mp hsched with hempty | hmem
    · exact absurd (List.isEmpty_iff.mp hempty) hne
    · exact List.mem_of_elem_eq_true hmem
  · intro hempty p hp hpos
    subst hempty
    apply List.mem_map_of_mem
    apply List.mem_filter.mpr
    refine ⟨hp, ?_⟩
    simp [scheduleOk, hpos]

/-- An empty placeholder row, used only as the default of `headD`. -/
def defaultStreamResult : StreamResult :=
  { player := witPC, score := 0, injury_sev := 0, playing_today := true }

/-- C7 witness: with a one-player waiver pool, unit needs and the schedule
set containing the player's team, the recommender returns the player with
its positive score and a team on the schedule. -/
theorem streaming_adds_spec_witness :
    (upperStr (((recommend_streaming_adds witOne [witPC] ["DEN"] 15).headD
        defaultStreamResult).player.nba_team_abbrev) ∈ ["DEN"])
    ∧ 0 < ((recommend_streaming_adds witOne [witPC] ["DEN"] 15).headD
        defaultStreamResult).score := by
  have hscore : streamScore witOne witPC = 1 := by
    norm_num [streamScore, player_effect, durability, StatLine.get,
      TRADE_CATEGORIES_eq, witPC, witOne]
  have hne : recommend_streaming_adds witOne [witPC] ["DEN"] 15 ≠ [] := by
    have hsched : scheduleOk ["DEN"] witPC = true := by decide
    have hkeep : (scheduleOk ["DEN"] witPC
        && decide (0 < streamScore witOne witPC)) = true := by
      rw [hscore]
      simp only [Bool.and_eq_true, decide_eq_true_eq]
      exact ⟨hsched, by norm_num⟩
    rw [recommend_streaming_adds, streamCandidates]
    simp only [List.filter_cons, List.filter_nil, hkeep, if_true]
    simp [sortByKeyDesc, insertByKeyDesc]
  have h := (streaming_adds_spec witOne [witPC] ["DEN"] 15).1 _
    (headD_mem hne defaultStreamResult)
  exact ⟨h.1 (by simp), h.2.1⟩

/-! ## Generic take/drop facts about the stable sort -/

lemma sorted_take_drop {α : Type} (key : α → ℚ) (l : List α) (n : ℕ) :
    ∀ x ∈ (sortByKeyDesc key l).take n, ∀ y ∈ (sortByKeyDesc key l).drop n,
      key y ≤ key x := by
  have hp := sorted_sortByKeyDesc key l
  rw [← List.take_append_drop n (sortByKeyDesc key l)] at hp
  exact fun x hx y hy => (List.pairwise_append.mp hp).2.2 x hx y hy

lemma mem_take_or_drop {α : Type} {x : α} (l : List α) (n : ℕ) (h : x ∈ l) :
    x ∈ l.take n ∨ x ∈ l.drop n := by
  rw [← List.take_append_drop n l] at h
  exact List.mem_append.mp h

lemma mem_sortByKeyAsc {α : Type} {key : α → ℚ} {x : α} {l : List α} :
    x ∈ sortByKeyAsc key l ↔ x ∈ l := by
  rw [sortByKeyAsc, mem_sortByKeyDesc]

lemma sortByKeyAsc_length {α : Type} (key : α → ℚ) (l : List α) :
    (sortByKeyAsc key l).length = l.length := by
  rw [sortByKeyAsc, sortByKeyDesc_length]

lemma sorted_take_drop_asc {α : Type} (key : α → ℚ) (l : List α) (n : ℕ) :
    ∀ x ∈ (sortByKeyAsc key l).take n, ∀ y ∈ (sortByKeyAsc key l).drop n,
      key x ≤ key y := by
  intro x hx y hy
  have h0 := sorted_take_drop (fun a => -(key a)) l n x hx y hy
  simp only at h0
  linarith

/-! ## Facts about punt and strength detection -/

lemma autoPunts_serious (rz w : Cat → ℚ) (h : seriousWeak rz w ≠ []) :
    (autoPunts rz w).length = min 3 (seriousWeak rz w).length
    ∧ (∀ c ∈ autoPunts rz w, c ∈ seriousWeak rz w)
    ∧ ∀ c ∈ autoPunts rz w, ∀ d ∈ seriousWeak rz w, d ∉ autoPunts rz w →
        rz c ≤ rz d := by
  rcases List.exists_cons_of_ne_nil h with ⟨sh, st, heq⟩
  have hdef : autoPunts rz w = (sortByKeyAsc rz (sh :: st)).take 3 := by
    rw [autoPunts, heq]
  refine ⟨?_, ?_, ?_⟩
  · rw [hdef, List.length_take, sortByKeyAsc_length, heq]
  · intro c hc
    rw [hdef] at hc
    have := mem_sortByKeyAsc.mp (List.mem_of_mem_take hc)
    rw [heq]
    exact this
  · intro c hc d hd hdn
    rw [hdef] at hc hdn
    have hds : d ∈ sortByKeyAsc rz (sh :: st) := by
      rw [mem_sortByKeyAsc, ← heq]
      exact hd
    rcases mem_take_or_drop _ 3 hds with h1 | h1
    · exact absurd h1 hdn
    · exact sorted_take_drop_asc rz (sh :: st) 3 c hc d h1

lemma autoPunts_weak (rz w : Cat → ℚ) (h1 : seriousWeak rz w = [])
    (h2 : weakCats rz w ≠ []) :
    ∃ m, autoPunts rz w = [m] ∧ m ∈ weakCats rz w
      ∧ ∀ d ∈ weakCats rz w, rz m ≤ rz d := by
  rcases List.exists_cons_of_ne_nil h2 with ⟨wh, wt, heq⟩
  have hdef : autoPunts rz w = [minByKey rz wh wt] := by
    rw [autoPunts, h1, heq]
  rcases minByKey_spec rz wt wh with ⟨hmem, hle, hall⟩
  refine ⟨minByKey rz wh wt, hdef, ?_, ?_⟩
  · rw [heq]
    rcases hmem with h3 | h3
    · rw [h3]
      exact List.mem_cons_self wh wt
    · exact List.mem_cons_of_mem wh h3
  · intro d hd
    rw [heq] at hd
    rcases List.mem_cons.mp hd with rfl | h3
    · exact hle
    · exact hall d h3

lemma autoPunts_none (rz w : Cat → ℚ) (h1 : seriousWeak rz w = [])
    (h2 : weakCats rz w = []) : autoPunts rz w = [] := by
  rw [autoPunts, h1, h2]

lemma mem_puntSet_iff (rz w : Cat → ℚ) (c : Cat) :
    c ∈ puntSet rz w ↔ (w c = 0 ∨ c ∈ autoPunts rz w) := by
  rw [puntSet, List.mem_append, List.mem_filter]
  simp only [decide_eq_true_eq]
  constructor
  · rintro (⟨_, h⟩ | h)
    · exact Or.inl h
    · exact Or.inr h
  · rintro (h | h)
    · exact Or.inl ⟨mem_CATEGORIES c, h⟩
    · exact Or.inr h

lemma aws_punt_iff (tp : TeamProfile) (w : Cat → ℚ) (c : Cat) :
    c ∈ (apply_weights_and_scores tp w).punt_categories
      ↔ (w c = 0 ∨ c ∈ autoPunts (fun c => tp.raw_zscores.get c) w) := by
  have hdef : (apply_weights_and_scores tp w).punt_categories
      = CATEGORIES.filter (fun c =>
          decide (c ∈ puntSet (fun c => tp.raw_zscores.get c) w)) := rfl
  rw [hdef, List.mem_filter]
  simp only [decide_eq_true_eq]
  rw [mem_puntSet_iff]
  exact ⟨fun h => h.2, fun h => ⟨mem_CATEGORIES c, h⟩⟩

/-- C3: after `apply_weights_and_scores`, every zero-weight category is a
punt; the total score is the sum of raw_z * weight over positive-weight
categories with the turnover term scaled by 0.25; a category is a punt
exactly when its weight is zero or it is an auto punt; the auto punts are
the up-to-3 most negative seriously weak (z at most -0.5) kept categories,
else the single most negative weak kept category, else none; and the
strengths are at most 4 non-punted kept categories with z at least 0.4,
sorted descending by z and complete up to the top-4 cut. -/
theorem apply_weights_and_scores_spec (tp : TeamProfile) (w : Cat → ℚ) :
    (∀ c ∈ CATEGORIES, w c = 0 →
      c ∈ (apply_weights_and_scores tp w).punt_categories)
    ∧ (apply_weights_and_scores tp w).total_score
      = ((CATEGORIES.filter (fun c => decide (0 < w c))).map (fun c =>
          tp.raw_zscores.get c * w c * (if c = Cat.TOV then 1/4 else 1))).sum
    ∧ (∀ c, c ∈ (apply_weights_and_scores tp w).punt_categories
        ↔ (w c = 0 ∨ c ∈ autoPunts (fun c => tp.raw_zscores.get c) w))
    ∧ (∀ c ∈ seriousWeak (fun c => tp.raw_zscores.get c) w,
        0 < w c ∧ tp.raw_zscores.get c ≤ -(1/2))
    ∧ (∀ c ∈ weakCats (fun c => tp.raw_zscores.get c) w,
        0 < w c ∧ tp.raw_zscores.get c < 0)
    ∧ (seriousWeak (fun c => tp.raw_zscores.get c) w ≠ [] →
        (autoPunts (fun c => tp.raw_zscores.get c) w).length
            = min 3 (seriousWeak (fun c => tp.raw_zscores.get c) w).length
          ∧ (∀ c ∈ autoPunts (fun c => tp.raw_zscores.get c) w,
              c ∈ seriousWeak (fun c => tp.raw_zscores.get c) w)
          ∧ ∀ c ∈ autoPunts (fun c => tp.raw_zscores.get c) w,
              ∀ d ∈ seriousWeak (fun c => tp.raw_zscores.get c) w,
                d ∉ autoPunts (fun c => tp.raw_zscores.get c) w →
                tp.raw_zscores.get c ≤ tp.raw_zscores.get d)
    ∧ (seriousWeak (fun c => tp.raw_zscores.get c) w = [] →
        weakCats (fun c => tp.raw_zscores.get c) w ≠ [] →
        ∃ m, autoPunts (fun c => tp.raw_zscores.get c) w = [m]
          ∧ m ∈ weakCats (fun c => tp.raw_zscores.get c) w
          ∧ ∀ d ∈ weakCats (fun c => tp.raw_zscores.get c) w,
              tp.raw_zscores.get m ≤ tp.raw_zscores.get d)
    ∧ (seriousWeak (fun c => tp.raw_zscores.get c) w = [] →
        weakCats (fun c => tp.raw_zscores.get c) w = [] →
        autoPunts (fun c => tp.raw_zscores.get c) w = [])
    ∧ (apply_weights_and_scores tp w).strength_categories.length ≤ 4
    ∧ (∀ c ∈ (apply_weights_and_scores tp w).strength_categories,
        0 < w c ∧ 2/5 ≤ tp.raw_zscores.get c
          ∧ c ∉ (apply_weights_and_scores tp w).punt_categories)
    ∧ (apply_weights_and_scores tp w).strength_categories.Pairwise
        (fun a b => tp.raw_zscores.get b ≤ tp.raw_zscores.get a)
    ∧ (∀ c ∈ CATEGORIES, 0 < w c →
        c ∉ (apply_weights_and_scores tp w).punt_categories →
        2/5 ≤ tp.raw_zscores.get c →
        c ∈ (apply_weights_and_scores tp w).strength_categories
        ∨ ((apply_weights_and_scores tp w).strength_categories.length = 4
          ∧ ∀ d ∈ (apply_weights_and_scores tp w).strength_categories,
              tp.raw_zscores.get c ≤ tp.raw_zscores.get d)) := by
  set rz := fun c => tp.raw_zscores.get c with hrz
  have hstr : (apply_weights_and_scores tp w).strength_categories
      = (sortByKeyDesc rz (strengthCands rz w)).take 4 := rfl
  have hcands : ∀ c, c ∈ strengthCands rz w
      ↔ (c ∈ CATEGORIES ∧ 0 < w c ∧ c ∉ puntSet rz w ∧ 2/5 ≤ rz c) := by
    intro c
    rw [strengthCands, List.mem_filter, keptCats, List.mem_filter]
    simp only [Bool.and_eq_true, decide_eq_true_eq]
    tauto
  refine ⟨?_, ?_, aws_punt_iff tp w, ?_, ?_,
    fun h => autoPunts_serious rz w h, fun h1 h2 => autoPunts_weak rz w h1 h2,
    fun h1 h2 => autoPunts_none rz w h1 h2, ?_, ?_, ?_, ?_⟩
  · intro c _ hw
    exact (aws_punt_iff tp w c).mpr (Or.inl hw)
  · have hdef : (apply_weights_and_scores tp w).total_score
        = (((keptCats w).map (fun c => (c, rz c * effWeight w c))).map Prod.snd).sum
        := rfl
    rw [hdef, List.map_map]
    apply congrArg List.sum
    apply List.map_congr_left
    intro c _
    simp only [Function.comp_apply, effWeight, TURNOVER_WEIGHT]
    ring
  · intro c hc
    rw [seriousWeak, List.mem_filter, keptCats, List.mem_filter] at hc
    simp only [decide_eq_true_eq] at hc
    exact ⟨hc.1.2, hc.2⟩
  · intro c hc
    rw [weakCats, List.mem_filter, keptCats, List.mem_filter] at hc
    simp only [decide_eq_true_eq] at hc
    exact ⟨hc.1.2, hc.2⟩
  · rw [hstr]
    exact List.length_take_le 4 _
  · intro c hc
    rw [hstr] at hc
    have hmem := mem_sortByKeyDesc.mp (List.mem_of_mem_take hc)
    rcases (hcands c).mp hmem with ⟨_, hw, hp, hz⟩
    refine ⟨hw, hz, ?_⟩
    intro hcontra
    rcases (aws_punt_iff tp w c).mp hcontra with h | h
    · exact absurd ((mem_puntSet_iff rz w c).mpr (Or.inl h)) hp
    · exact absurd ((mem_puntSet_iff rz w c).mpr (Or.inr h)) hp
  · rw [hstr]
    exact List.Pairwise.sublist (List.take_sublist 4 _) (sorted_sortByKeyDesc rz _)
  · intro c hcat hw hp hz
    have hps : c ∉ puntSet rz w := by
      intro hcontra
      exact hp ((aws_punt_iff tp w c).mpr ((mem_puntSet_iff rz w c).mp hcontra))
    have hc : c ∈ sortByKeyDesc rz (strengthCands rz w) :=
      mem_sortByKeyDesc.mpr ((hcands c).mpr ⟨hcat, hw, hps, hz⟩)
    rcases mem_take_or_drop _ 4 hc with h1 | h1
    · left
      rw [hstr]
      exact h1
    · right
      have hlen : 4 < (sortByKeyDesc rz (strengthCands rz w)).length := by
        by_contra hle
        push_neg at hle
        rw [List.drop_eq_nil_of_le hle] at h1
        exact absurd h1 (List.not_mem_nil c)
      constructor
      · rw [hstr, List.length_take]
        omega
      · intro d hd
        rw [hstr] at hd
        exact sorted_take_drop rz (strengthCands rz w) 4 d hd c h1

/-- Witness team profile for the weighting claim: a strong scorer with four
seriously weak categories. -/
def witTP : TeamProfile :=
  { team_name := "TW", players := []
    raw_zscores := ⟨1, -(3/5), -(7/10), -(11/20), -(4/5), 1/2, 9/20, 41/100, 0⟩
    punt_categories := [], strength_categories := [] }

/-- Witness weights: field-goal percentage manually punted, all else 1. -/
def witW : Cat → ℚ := fun c => match c with | .FGP => 0 | _ => 1

/-- C3 witness: with FG% weight set to zero the category lands in the punt
list regardless of its positive z-score, and with four seriously weak
categories exactly the worst three are auto-punted. -/
theorem apply_weights_and_scores_spec_witness :
    Cat.FGP ∈ (apply_weights_and_scores witTP witW).punt_categories
    ∧ (autoPunts (fun c => witTP.raw_zscores.get c) witW).length = 3 := by
  have h := apply_weights_and_scores_spec witTP witW
  have hsl : seriousWeak (fun c => witTP.raw_zscores.get c) witW
      = [Cat.REB, Cat.AST, Cat.STL, Cat.BLK] := by
    norm_num [seriousWeak, keptCats, CATEGORIES, StatLine.get, witTP, witW]
  refine ⟨h.1 Cat.FGP (by decide) (by norm_num [witW]), ?_⟩
  have hs : seriousWeak (fun c => witTP.raw_zscores.get c) witW ≠ [] := by
    rw [hsl]
    simp
  have h6 := h.2.2.2.2.2.1 hs
  rw [h6.1, hsl]
  norm_num

/-- A team whose points category is a flagged strength with z = 0.1, inside
the claimed swing-zone interval. -/
def cexTeam : TeamProfile :=
  { team_name := "TC", players := []
    raw_zscores := ⟨1/10, 0, 0, 0, 0, 0, 0, 0, 0⟩
    punt_categories := [Cat.TOV], strength_categories := [Cat.PTS] }

/-- C8 counterexample: for a category flagged as a strength with z = 0.1
(inside the swing zone (-0.3, 0.2)) the enhanced preference builder applies
the strength tier, not the swing-zone tier, so the claimed swing-zone base
value is not produced. -/
theorem swing_zone_priority_counterexample :
    (-(3/10) < cexTeam.raw_zscores.get Cat.PTS
      ∧ cexTeam.raw_zscores.get Cat.PTS < 1/5
      ∧ Cat.PTS ∈ cexTeam.strength_categories)
    ∧ enhancedBase witExp cexTeam Cat.PTS
        ≠ 4/5 + 2/5 * (1 - |cexTeam.raw_zscores.get Cat.PTS|) := by
  constructor
  · exact ⟨by norm_num [cexTeam, StatLine.get], by norm_num [cexTeam, StatLine.get],
      by decide⟩
  · have h1 : enhancedBase witExp cexTeam Cat.PTS = 21/20 := by
      norm_num [enhancedBase, diminishing_returns, witExp, cexTeam, StatLine.get]
    have habs : |cexTeam.raw_zscores.get Cat.PTS| = 1/10 := by
      rw [show cexTeam.raw_zscores.get Cat.PTS = 1/10 from rfl, abs_of_pos]
      norm_num
    rw [h1, habs]
    norm_num

/-- C8 (amended): in the enhanced preference builder the swing-zone tier
(base 0.8 + 0.4 * (1 - |z|)) applies to every tradeable category with z in
(-0.3, 0.2] that does not take the strength branch; a category flagged as a
strength with z > 0 takes the strength tier instead, with priority above
the swing zone; and punted categories have their adjusted base multiplied
by 0.2 (not the basic engine's 0.3). -/
theorem swing_zone_priority_amended (expf : ℚ → ℚ) (team : TeamProfile)
    (w : Cat → ℚ) (opp : Option TeamProfile) (c : Cat) :
    (¬(c ∈ team.strength_categories ∧ 0 < team.raw_zscores.get c) →
      -(3/10) < team.raw_zscores.get c → team.raw_zscores.get c ≤ 1/5 →
      enhancedBase expf team c = 4/5 + 2/5 * (1 - |team.raw_zscores.get c|))
    ∧ (c ∈ team.strength_categories → 0 < team.raw_zscores.get c →
      enhancedBase expf team c
        = 1 + 1/2 * diminishing_returns expf (team.raw_zscores.get c) 1)
    ∧ (c ∈ team.punt_categories →
      enhancedPrefRaw expf team w opp c
        = max 0 (enhancedAdjusted expf team opp c * (1/5) * w c)) := by
  refine ⟨?_, ?_, ?_⟩
  · intro h hz1 hz2
    rw [enhancedBase, if_neg h, if_neg (not_lt.mpr hz2), if_pos hz1]
  · intro h1 h2
    rw [enhancedBase, if_pos ⟨h1, h2⟩]
  · intro h
    rw [enhancedPrefRaw, if_pos h]

/-- C8 witness: on the concrete team the non-strength rebound category
(z = 0) takes the swing-zone value, the strength points category takes the
strength value, and the punted turnover category is scaled by 0.2. -/
theorem swing_zone_priority_amended_witness :
    enhancedBase witExp cexTeam Cat.REB
      = 4/5 + 2/5 * (1 - |cexTeam.raw_zscores.get Cat.REB|)
    ∧ enhancedBase witExp cexTeam Cat.PTS
      = 1 + 1/2 * diminishing_returns witExp (cexTeam.raw_zscores.get Cat.PTS) 1
    ∧ enhancedPrefRaw witExp cexTeam witOne none Cat.TOV
      = max 0 (enhancedAdjusted witExp cexTeam none Cat.TOV * (1/5)
          * witOne Cat.TOV) := by
  have h1 := swing_zone_priority_amended witExp cexTeam witOne none Cat.REB
  have h2 := swing_zone_priority_amended witExp cexTeam witOne none Cat.PTS
  have h3 := swing_zone_priority_amended witExp cexTeam witOne none Cat.TOV
  refine ⟨h1.1 ?_ ?_ ?_, h2.2.1 (by decide) ?_, h3.2.2 (by decide)⟩
  · intro hcontra
    exact absurd hcontra.1 (by decide)
  · norm_num [cexTeam, StatLine.get]
  · norm_num [cexTeam, StatLine.get]
  · norm_num [cexTeam, StatLine.get]
